import Mathlib

/-!
Verification of the dependency-usage reconciliation engine of `cargo-udeps`
(`src/lib.rs`), as a shallow embedding in Lean 4.

Rust `HashMap`s are embedded as association lists (`List (String × α)`) with
first-match lookup; `HashSet`s / `BTreeSet`s as duplicate-free-by-insertion
lists.  All claims settled here are about membership in those maps and sets,
which is insensitive to the iteration-order differences between hash maps and
lists.  `InternedString` and `PackageId` are embedded as `String`.
-/

namespace CargoUdeps

/-- Embeds `PackageId` (opaque identifier, used only as a map key). -/
abbrev PkgId := String

/-- Embeds `InternedString` as used for `name_in_toml` values. -/
abbrev Name := String

/-- Embeds `cargo::core::dependency::Kind` (`Normal`, `Development`, `Build`). -/
inductive DepKind where
  | normal
  | development
  | build
deriving DecidableEq, Repr

/-- First-match lookup in an association list; embeds `HashMap::get`. -/
def alookup {α : Type} : List (String × α) → String → Option α
  | [], _ => none
  | (k, v) :: m, key => if k = key then some v else alookup m key

/-- Insert-or-overwrite in an association list; embeds `HashMap::insert`. -/
def ainsert {α : Type} : List (String × α) → String → α → List (String × α)
  | [], k, v => [(k, v)]
  | (k0, v0) :: m, k, v =>
    if k0 = k then (k, v) :: m else (k0, v0) :: ainsert m k v

/-- Set insertion (no duplicates); embeds `HashSet::insert` / `BTreeSet::insert`. -/
def sinsert {α : Type} [DecidableEq α] (s : List α) (v : α) : List α :=
  if v ∈ s then s else s ++ [v]

/-- Embeds `map.entry(k).or_insert_with(HashSet::new).insert(v)`
on a `HashMap<String, HashSet<Name>>`. -/
def minsert : List (String × List Name) → String → Name → List (String × List Name)
  | [], k, v => [(k, [v])]
  | (k0, vs) :: m, k, v =>
    if k0 = k then (k0, sinsert vs v) :: m else (k0, vs) :: minsert m k v

theorem mem_sinsert_iff {α : Type} [DecidableEq α] (s : List α) (v x : α) :
    x ∈ sinsert s v ↔ x ∈ s ∨ x = v := by
  unfold sinsert
  by_cases h : v ∈ s
  · simp only [if_pos h]
    constructor
    · exact fun hx => Or.inl hx
    · rintro (hx | rfl) <;> [exact hx; exact h]
  · simp [if_neg h, List.mem_append]

theorem mem_sinsert_of_mem {α : Type} [DecidableEq α] {s : List α} {x : α} (v : α)
    (h : x ∈ s) : x ∈ sinsert s v :=
  (mem_sinsert_iff s v x).2 (Or.inl h)

theorem mem_sinsert_self {α : Type} [DecidableEq α] (s : List α) (v : α) :
    v ∈ sinsert s v :=
  (mem_sinsert_iff s v v).2 (Or.inr rfl)

theorem alookup_mem {α : Type} {m : List (String × α)} {k : String} {v : α}
    (h : alookup m k = some v) : (k, v) ∈ m := by
  induction m with
  | nil => simp [alookup] at h
  | cons p m ih =>
    obtain ⟨k0, v0⟩ := p
    simp only [alookup] at h
    split at h
    · next heq =>
      obtain rfl := heq
      obtain rfl : v0 = v := Option.some.inj h
      exact List.mem_cons_self _ _
    · exact List.mem_cons_of_mem _ (ih h)

theorem mem_ainsert {α : Type} {m : List (String × α)} {k a : String} {v b : α}
    (h : (a, b) ∈ ainsert m k v) : (a, b) = (k, v) ∨ (a, b) ∈ m := by
  induction m with
  | nil =>
    simp only [ainsert, List.mem_singleton] at h
    exact Or.inl h
  | cons p m ih =>
    obtain ⟨k0, v0⟩ := p
    simp only [ainsert] at h
    split at h
    · rcases List.mem_cons.1 h with h1 | h1
      · exact Or.inl h1
      · exact Or.inr (List.mem_cons_of_mem _ h1)
    · rcases List.mem_cons.1 h with h1 | h1
      · exact Or.inr (List.mem_cons.2 (Or.inl h1))
      · rcases ih h1 with h2 | h2
        · exact Or.inl h2
        · exact Or.inr (List.mem_cons_of_mem _ h2)

/-- Membership of a name among the value sets of a multimap
(`∃ (lib, names) ∈ m, d ∈ names`). -/
abbrev libValMem (m : List (String × List Name)) (d : Name) : Prop :=
  ∃ p ∈ m, d ∈ p.2

theorem libValMem_minsert_iff (m : List (String × List Name)) (k : String) (v d : Name) :
    libValMem (minsert m k v) d ↔ d = v ∨ libValMem m d := by
  induction m with
  | nil =>
    constructor
    · rintro ⟨p, hp, hd⟩
      obtain rfl := List.mem_singleton.1 hp
      obtain rfl := List.mem_singleton.1 hd
      exact Or.inl rfl
    · rintro (rfl | ⟨p, hp, _⟩)
      · exact ⟨(k, [d]), List.mem_singleton.2 rfl, List.mem_singleton.2 rfl⟩
      · cases hp
  | cons p0 m ih =>
    obtain ⟨k0, vs⟩ := p0
    simp only [minsert]
    split
    · constructor
      · rintro ⟨q, hq, hd⟩
        rcases List.mem_cons.1 hq with hq1 | hq1
        · obtain rfl := hq1
          rcases (mem_sinsert_iff vs v d).1 hd with h1 | h1
          · exact Or.inr ⟨(k0, vs), List.mem_cons_self _ _, h1⟩
          · exact Or.inl h1
        · exact Or.inr ⟨q, List.mem_cons_of_mem _ hq1, hd⟩
      · rintro (rfl | ⟨q, hq, hd⟩)
        · exact ⟨(k0, sinsert vs d), List.mem_cons_self _ _, mem_sinsert_self vs d⟩
        · rcases List.mem_cons.1 hq with hq1 | hq1
          · obtain rfl := hq1
            exact ⟨(k0, sinsert vs v), List.mem_cons_self _ _, mem_sinsert_of_mem v hd⟩
          · exact ⟨q, List.mem_cons_of_mem _ hq1, hd⟩
    · constructor
      · rintro ⟨q, hq, hd⟩
        rcases List.mem_cons.1 hq with hq1 | hq1
        · obtain rfl := hq1
          exact Or.inr ⟨(k0, vs), List.mem_cons_self _ _, hd⟩
        · rcases ih.1 ⟨q, hq1, hd⟩ with h1 | ⟨r, hr, hd1⟩
          · exact Or.inl h1
          · exact Or.inr ⟨r, List.mem_cons_of_mem _ hr, hd1⟩
      · rintro (rfl | ⟨q, hq, hd⟩)
        · obtain ⟨r, hr, hd1⟩ := ih.2 (Or.inl rfl)
          exact ⟨r, List.mem_cons_of_mem _ hr, hd1⟩
        · rcases List.mem_cons.1 hq with hq1 | hq1
          · obtain rfl := hq1
            exact ⟨(k0, vs), List.mem_cons_self _ _, hd⟩
          · obtain ⟨r, hr, hd1⟩ := ih.2 (Or.inr ⟨q, hq1, hd⟩)
            exact ⟨r, List.mem_cons_of_mem _ hr, hd1⟩

/-! ## Name tables (`DependencyNames`, `DependencyNamesValue`, `DependencyNames::new`) -/

/-- Embeds `struct DependencyNamesValue` of `src/lib.rs`: the per-kind name
table of one workspace member (`by_extern_crate_name`,
`by_lib_true_snakecased_name`, `non_lib`). -/
structure DependencyNamesValue where
  by_extern_crate_name : List (String × Name)
  by_lib_true_snakecased_name : List (String × List Name)
  non_lib : List Name
deriving DecidableEq, Repr

/-- Embeds `struct DependencyNames`: one `DependencyNamesValue` per
`dependency::Kind`. -/
structure DependencyNames where
  normal : DependencyNamesValue
  development : DependencyNamesValue
  build : DependencyNamesValue
deriving DecidableEq, Repr

def emptyValue : DependencyNamesValue := ⟨[], [], []⟩

def emptyNames : DependencyNames := ⟨emptyValue, emptyValue, emptyValue⟩

/-- Embeds `Index<dependency::Kind> for DependencyNames`. -/
def DependencyNames.get (dn : DependencyNames) : DepKind → DependencyNamesValue
  | .normal => dn.normal
  | .development => dn.development
  | .build => dn.build

/-- Embeds `IndexMut<dependency::Kind> for DependencyNames` (functional update). -/
def DependencyNames.modifyKind (dn : DependencyNames) :
    DepKind → (DependencyNamesValue → DependencyNamesValue) → DependencyNames
  | .normal, f => { dn with normal := f dn.normal }
  | .development, f => { dn with development := f dn.development }
  | .build, f => { dn with build := f dn.build }

/-- Embeds one `DepKind`-tagged dependency edge (`Dependency`: its `kind()` and
`name_in_toml()`), as yielded by `resolve.deps(from)`. -/
structure DepEdge where
  kind : DepKind
  name_in_toml : Name
deriving DecidableEq, Repr

/-- Embeds one `(to_pkg, deps)` element of `resolve.deps(from)` together with
the facts `DependencyNames::new` queries about `to_pkg`: whether some target
`t` of `to_pkg` has `t.is_lib()` (and that target's name), and
`resolve.extern_crate_name(from, to_pkg, to_lib)`. -/
structure ResolveEntry where
  to_pkg : PkgId
  libName : Option String
  externCrateName : String
  deps : List DepEdge
deriving DecidableEq, Repr

/-- Embeds `to_lib.name().replace('-', "_")` (written over the character
list so that proofs can evaluate it). -/
def snakecase (s : String) : String :=
  ⟨s.data.map (fun c => if c = '-' then '_' else c)⟩

/-- The `if let Some(to_lib)` body of `DependencyNames::new` for one edge:
insert the extern crate name into `by_extern_crate_name` and the snakecased
library name into `by_lib_true_snakecased_name` of the edge's kind. -/
def addLibEdge (ecn snake : String) (dn : DependencyNames) (edge : DepEdge) :
    DependencyNames :=
  dn.modifyKind edge.kind (fun v =>
    { v with
      by_extern_crate_name := ainsert v.by_extern_crate_name ecn edge.name_in_toml
      by_lib_true_snakecased_name :=
        minsert v.by_lib_true_snakecased_name snake edge.name_in_toml })

/-- The `else` body of `DependencyNames::new` for one edge: insert the
declared name into `non_lib` of the edge's kind. -/
def addNonLibEdge (dn : DependencyNames) (edge : DepEdge) : DependencyNames :=
  dn.modifyKind edge.kind (fun v =>
    { v with non_lib := sinsert v.non_lib edge.name_in_toml })

/-- One iteration of the `for (to_pkg, deps) in resolve.deps(from)` loop of
`DependencyNames::new`. -/
def depNamesAddEntry (dn : DependencyNames) (e : ResolveEntry) : DependencyNames :=
  match e.libName with
  | some libname =>
    e.deps.foldl (addLibEdge e.externCrateName (snakecase libname)) dn
  | none =>
    e.deps.foldl addNonLibEdge dn

/-- The table-construction part of `DependencyNames::new` (the loop over
`resolve.deps(from)`). -/
def buildDepNames (entries : List ResolveEntry) : DependencyNames :=
  entries.foldl depNamesAddEntry emptyNames

/-- Embeds the `ambiguous_names` closure of `DependencyNames::new`: over the
given kinds, every `(name_in_toml, lib_name)` pair whose lib name is mapped to
more than one `name_in_toml` by that kind's table.  (The Rust code collects
these pairs into a `BTreeMap` keyed by `name_in_toml`; the list here has the
same members.) -/
def ambiguousNames (dn : DependencyNames) (kinds : List DepKind) : List (Name × String) :=
  (((kinds.flatMap fun k => (dn.get k).by_lib_true_snakecased_name).filter
      (fun p => decide (1 < p.2.length))).flatMap
    fun p => p.2.map fun n => (n, p.1))

/-- Embeds `DependencyNames::new` as a whole: the constructed tables plus the
two ambiguity lists (`ambiguous_normal_dev`, `ambiguous_build`).  The Rust
code emits a warning on the shell iff at least one of the two lists is
non-empty. -/
def depNamesNew (entries : List ResolveEntry) :
    DependencyNames × List (Name × String) × List (Name × String) :=
  let dn := buildDepNames entries
  (dn, ambiguousNames dn [DepKind.normal, DepKind.development],
    ambiguousNames dn [DepKind.build])

/-! ## Invocation records (`CmdInfo`, `cmd_info`) -/

/-- Embeds `struct CmdInfo`. -/
structure CmdInfo where
  pkg : PkgId
  custom_build : Bool
  crate_name : String
  crate_type : String
  extra_filename : String
  cap_lints_allow : Bool
  out_dir : String
  externs : List (String × String)
deriving DecidableEq, Repr

/-- Whether the second list is a prefix of the first (over characters). -/
def charsBegin : List Char → List Char → Bool
  | _, [] => true
  | [], _ :: _ => false
  | a :: s, b :: p => if a = b then charsBegin s p else false

/-- `str::ends_with`, written over character lists so that proofs can
evaluate it. -/
def strEndsWith (s post : String) : Bool :=
  charsBegin s.data.reverse post.data.reverse

/-- Embeds `CmdInfo::get_save_analysis_path` (`Path::join` written with
explicit separators). -/
def CmdInfo.get_save_analysis_path (c : CmdInfo) : String :=
  let maybe_lib :=
    if strEndsWith c.crate_type "lib" || c.crate_type = "proc-macro" then "lib" else ""
  c.out_dir ++ "/save-analysis/" ++ maybe_lib ++ c.crate_name ++ c.extra_filename ++ ".json"

/-- Modelled from the spec: the repository's `src/defs.rs` (declaring
`CrateSaveAnalysis`) is not present under `src/`.  Per the spec, a
`UsageArtifact` is "a list of library names observed as referenced from inside
the compiled code"; `src/lib.rs` reads it as `analysis.prelude.external_crates`
iterating over elements whose `.id.name` is the library name.  The structure is
flattened to that list of names. -/
structure CrateSaveAnalysis where
  external_crates : List String
deriving DecidableEq, Repr

/-- Error conditions of `cmd_info`: the three `failure::err_msg` early returns
plus the `panic!("invalid format for extern arg")`, embedded as a fourth
error value. -/
inductive CmdInfoErr where
  | invalidExtern
  | crateNameNeeded
  | extraFilenameNeeded
  | outdirNeeded
deriving DecidableEq, Repr

/-- The text before the first `=` of a character list and the remainder after
it; `none` when there is no `=`. -/
def breakEq : List Char → Option (List Char × List Char)
  | [] => none
  | ch :: l =>
    if ch = '=' then some ([], l)
    else
      match breakEq l with
      | some (a, b) => some (ch :: a, b)
      | none => none

/-- Embeds Rust's `a.split("=")` read twice: the text before the first `=` and
the text between the first and second `=`; `none` when there is no `=`. -/
def splitEq (s : String) : Option (String × String) :=
  match breakEq s.data with
  | none => none
  | some (a, rest) =>
    some (⟨a⟩, ⟨((breakEq rest).map Prod.fst).getD rest⟩)

/-- The mutable locals of `cmd_info` while scanning the argument list. -/
structure CmdScanState where
  crate_name : Option String
  crate_type : Option String
  extra_filename : Option String
  cap_lints_allow : Bool
  out_dir : Option String
  externs : List (String × String)
deriving DecidableEq, Repr

def CmdScanState.init : CmdScanState := ⟨none, none, none, false, none, []⟩

/-- Embeds the `while let Some(v) = args_iter.next()` loop of `cmd_info`.
A recognised flag consumes the following argument; when a flag is the last
argument the loop simply ends (every arm with an exhausted iterator returns
the state unchanged, which the single-element pattern captures). -/
def cmdInfoLoop : List String → CmdScanState → Except CmdInfoErr CmdScanState
  | [], st => .ok st
  | [_], st => .ok st
  | v :: a :: rest, st =>
    if v = "--extern" then
      match splitEq a with
      | some np => cmdInfoLoop rest { st with externs := st.externs ++ [np] }
      | none => .error .invalidExtern
    else if v = "--crate-name" then
      cmdInfoLoop rest { st with crate_name := some a }
    else if v = "--crate-type" then
      cmdInfoLoop rest { st with crate_type := some a }
    else if v = "--cap-lints" then
      cmdInfoLoop rest
        (if a = "allow" then { st with cap_lints_allow := true } else st)
    else if v = "--out-dir" then
      cmdInfoLoop rest { st with out_dir := some a }
    else if v = "-C" then
      cmdInfoLoop rest
        (match splitEq a with
          | some np =>
            if np.1 = "extra-filename" then { st with extra_filename := some np.2 }
            else st
          | none => st)
    else cmdInfoLoop (a :: rest) st

/-- Embeds `fn cmd_info`: scan the argument list, then require crate name,
extra-filename and out-dir, defaulting the crate type to `"bin"`. -/
def cmd_info (id : PkgId) (custom_build : Bool) (args : List String) :
    Except CmdInfoErr CmdInfo :=
  match cmdInfoLoop args CmdScanState.init with
  | .error e => .error e
  | .ok st =>
    match st.crate_name with
    | none => .error .crateNameNeeded
    | some crate_name =>
      let crate_type := st.crate_type.getD "bin"
      match st.extra_filename with
      | none => .error .extraFilenameNeeded
      | some extra_filename =>
        match st.out_dir with
        | none => .error .outdirNeeded
        | some out_dir =>
          .ok
            { pkg := id, custom_build, crate_name, crate_type, extra_filename
              cap_lints_allow := st.cap_lints_allow, out_dir
              externs := st.externs }

/-! ## Ignore lists, outcome, and the `OptUdeps::run` pipeline -/

/-- Embeds `struct PackageMetadataCargoUdepsIgnore`. -/
structure IgnoreCfg where
  normal : List Name
  development : List Name
  build : List Name
deriving DecidableEq, Repr

def IgnoreCfg.empty : IgnoreCfg := ⟨[], [], []⟩

/-- Embeds `PackageMetadataCargoUdepsIgnore::contains`. -/
def IgnoreCfg.containsDep (ig : IgnoreCfg) (kind : DepKind) (name_in_toml : Name) : Bool :=
  (match kind with
    | .normal => ig.normal
    | .development => ig.development
    | .build => ig.build).contains name_in_toml

/-- Embeds `struct OutcomeUnusedDeps`. -/
structure OutcomeUnusedDeps where
  manifest_path : String
  normal : List Name
  development : List Name
  build : List Name
deriving DecidableEq, Repr

/-- Embeds `OutcomeUnusedDeps::new`. -/
def OutcomeUnusedDeps.new (manifest_path : String) : OutcomeUnusedDeps :=
  ⟨manifest_path, [], [], []⟩

/-- Read access to the per-kind set selected by `unused_deps_mut`. -/
def OutcomeUnusedDeps.getKind (e : OutcomeUnusedDeps) : DepKind → List Name
  | .normal => e.normal
  | .development => e.development
  | .build => e.build

/-- Embeds `outcome.insert(dependency)` through `unused_deps_mut(kind)`
(functional update). -/
def OutcomeUnusedDeps.insertKind (e : OutcomeUnusedDeps) : DepKind → Name → OutcomeUnusedDeps
  | .normal, d => { e with normal := sinsert e.normal d }
  | .development, d => { e with development := sinsert e.development d }
  | .build, d => { e with build := sinsert e.build d }

/-- Embeds `struct Outcome` (the advisory `note` text, assembled from CLI
flags outside the engine, is not modelled). -/
structure Outcome where
  success : Bool
  unused_deps : List (PkgId × OutcomeUnusedDeps)
deriving DecidableEq, Repr

/-- The five accumulators of `OptUdeps::run`:
`used_normal_dev_dependencies`, `used_build_dependencies`,
`normal_dependencies`, `dev_dependencies`, `build_dependencies`. -/
structure RunState where
  used_normal_dev : List (PkgId × Name)
  used_build : List (PkgId × Name)
  normal_deps : List (PkgId × Name)
  dev_deps : List (PkgId × Name)
  build_deps : List (PkgId × Name)
deriving DecidableEq, Repr

/-- The declared-dependencies accumulator iterated for kind `K` in the unused
loop of `OptUdeps::run`. -/
def RunState.depsOf (st : RunState) : DepKind → List (PkgId × Name)
  | .normal => st.normal_deps
  | .development => st.dev_deps
  | .build => st.build_deps

/-- The used-dependencies accumulator consulted for kind `K`: Normal and
Development share `used_normal_dev_dependencies`. -/
def RunState.usedOf (st : RunState) : DepKind → List (PkgId × Name)
  | .normal => st.used_normal_dev
  | .development => st.used_normal_dev
  | .build => st.used_build

/-- The kinds whose `collect_names` calls feed the used-accumulator consulted
for kind `K`. -/
def kindGroup : DepKind → List DepKind
  | .normal => [.normal, .development]
  | .development => [.normal, .development]
  | .build => [.build]

/-- Embeds the `collect_names` closure of `OptUdeps::run`: the first loop marks
used dependencies from the save-analysis `external_crates` via
`by_lib_true_snakecased_name`; the second loop records the invocation's
`--extern` aliases found in `by_extern_crate_name` into the
declared-dependencies accumulator. -/
def collectNames (pkg : PkgId) (analysis : CrateSaveAnalysis)
    (externs : List (String × String)) (v : DependencyNamesValue)
    (used deps : List (PkgId × Name)) :
    List (PkgId × Name) × List (PkgId × Name) :=
  let used :=
    analysis.external_crates.foldl
      (fun used extName =>
        match alookup v.by_lib_true_snakecased_name extName with
        | some names => names.foldl (fun u n => sinsert u (pkg, n)) used
        | none => used)
      used
  let deps :=
    externs.foldl
      (fun deps np =>
        match alookup v.by_extern_crate_name np.1 with
        | some n => sinsert deps (pkg, n)
        | none => deps)
      deps
  (used, deps)

/-- The three `collect_names` calls of `OptUdeps::run` for one invocation:
the normal call reads and feeds `used_normal_dev`, the development call reads
the normal call's output of it, the build call uses `used_build`. -/
def applyCmd (pkg : PkgId) (analysis : CrateSaveAnalysis)
    (externs : List (String × String)) (dn : DependencyNames) (st : RunState) :
    RunState :=
  { used_normal_dev :=
      (collectNames pkg analysis externs dn.development
        (collectNames pkg analysis externs dn.normal st.used_normal_dev st.normal_deps).1
        st.dev_deps).1
    used_build :=
      (collectNames pkg analysis externs dn.build st.used_build st.build_deps).1
    normal_deps :=
      (collectNames pkg analysis externs dn.normal st.used_normal_dev st.normal_deps).2
    dev_deps :=
      (collectNames pkg analysis externs dn.development
        (collectNames pkg analysis externs dn.normal st.used_normal_dev st.normal_deps).1
        st.dev_deps).2
    build_deps :=
      (collectNames pkg analysis externs dn.build st.used_build st.build_deps).2 }

theorem applyCmd_used_normal_dev (pkg : PkgId) (analysis : CrateSaveAnalysis)
    (externs : List (String × String)) (dn : DependencyNames) (st : RunState) :
    (applyCmd pkg analysis externs dn st).used_normal_dev =
      (collectNames pkg analysis externs dn.development
        (collectNames pkg analysis externs dn.normal st.used_normal_dev st.normal_deps).1
        st.dev_deps).1 := rfl

theorem applyCmd_used_build (pkg : PkgId) (analysis : CrateSaveAnalysis)
    (externs : List (String × String)) (dn : DependencyNames) (st : RunState) :
    (applyCmd pkg analysis externs dn st).used_build =
      (collectNames pkg analysis externs dn.build st.used_build st.build_deps).1 := rfl

theorem applyCmd_normal_deps (pkg : PkgId) (analysis : CrateSaveAnalysis)
    (externs : List (String × String)) (dn : DependencyNames) (st : RunState) :
    (applyCmd pkg analysis externs dn st).normal_deps =
      (collectNames pkg analysis externs dn.normal st.used_normal_dev st.normal_deps).2 := rfl

theorem applyCmd_dev_deps (pkg : PkgId) (analysis : CrateSaveAnalysis)
    (externs : List (String × String)) (dn : DependencyNames) (st : RunState) :
    (applyCmd pkg analysis externs dn st).dev_deps =
      (collectNames pkg analysis externs dn.development
        (collectNames pkg analysis externs dn.normal st.used_normal_dev st.normal_deps).1
        st.dev_deps).2 := rfl

theorem applyCmd_build_deps (pkg : PkgId) (analysis : CrateSaveAnalysis)
    (externs : List (String × String)) (dn : DependencyNames) (st : RunState) :
    (applyCmd pkg analysis externs dn st).build_deps =
      (collectNames pkg analysis externs dn.build st.used_build st.build_deps).2 := rfl

/-- One iteration of the `for cmd_info in data.relevant_cmd_infos` loop:
`get_save_analysis` is called first (a missing or unreadable artifact is an
error propagated by `?`), and only then is the invocation's package looked up
among the workspace members' name tables. -/
def processCmdInfo (dns : List (PkgId × DependencyNames))
    (fs : String → Option CrateSaveAnalysis) (st : RunState) (c : CmdInfo) :
    Except String RunState :=
  match fs c.get_save_analysis_path with
  | none => .error "could not load save analysis"
  | some analysis =>
    match alookup dns c.pkg with
    | none => .ok st
    | some dn => .ok (applyCmd c.pkg analysis c.externs dn st)

/-- The initial accumulators: the used sets start empty, the declared sets
start as the members' `non_lib` names per kind. -/
def initialState (dns : List (PkgId × DependencyNames)) : RunState :=
  { used_normal_dev := []
    used_build := []
    normal_deps :=
      dns.foldl (fun a p => p.2.normal.non_lib.foldl (fun a s => sinsert a (p.1, s)) a) []
    dev_deps :=
      dns.foldl (fun a p => p.2.development.non_lib.foldl (fun a s => sinsert a (p.1, s)) a) []
    build_deps :=
      dns.foldl (fun a p => p.2.build.non_lib.foldl (fun a s => sinsert a (p.1, s)) a) [] }

/-- Embeds `outcome.unused_deps.entry(id).or_insert(OutcomeUnusedDeps::new(..))`
on the association-list embedding of the `BTreeMap`. -/
def orInsertEntry : List (PkgId × OutcomeUnusedDeps) → PkgId → String →
    List (PkgId × OutcomeUnusedDeps)
  | [], id, mp => [(id, OutcomeUnusedDeps.new mp)]
  | (i, e) :: rest, id, mp =>
    if i = id then (i, e) :: rest else (i, e) :: orInsertEntry rest id mp

/-- Inserting `d` into the kind-`k` unused set of package `id`'s entry. -/
def insertUnused : List (PkgId × OutcomeUnusedDeps) → PkgId → DepKind → Name →
    List (PkgId × OutcomeUnusedDeps)
  | [], _, _, _ => []
  | (i, e) :: rest, id, k, d =>
    if i = id then (i, e.insertKind k d) :: rest
    else (i, e) :: insertUnused rest id k d

/-- One candidate `(id, dependency)` of the unused loop: skip if used;
otherwise create the package's outcome entry (`entry(id).or_insert`), then
either log the suppression (`shell().info("Ignoring ...")`, modelled as the
second component) or insert into the per-kind unused set. -/
def stepCandidate (ignores : PkgId → IgnoreCfg) (manifest_path : PkgId → String)
    (kind : DepKind) (used : List (PkgId × Name))
    (acc : List (PkgId × OutcomeUnusedDeps) × List (PkgId × DepKind × Name))
    (c : PkgId × Name) :
    List (PkgId × OutcomeUnusedDeps) × List (PkgId × DepKind × Name) :=
  if c ∈ used then acc
  else
    let out := orInsertEntry acc.1 c.1 (manifest_path c.1)
    if (ignores c.1).containsDep kind c.2 then (out, acc.2 ++ [(c.1, kind, c.2)])
    else (insertUnused out c.1 kind c.2, acc.2)

/-- The unused loop for one `(dependencies, used_dependencies, kind)` triple. -/
def aggregatePass (ignores : PkgId → IgnoreCfg) (manifest_path : PkgId → String)
    (kind : DepKind) (used : List (PkgId × Name))
    (acc : List (PkgId × OutcomeUnusedDeps) × List (PkgId × DepKind × Name))
    (deps : List (PkgId × Name)) :
    List (PkgId × OutcomeUnusedDeps) × List (PkgId × DepKind × Name) :=
  deps.foldl (stepCandidate ignores manifest_path kind used) acc

/-- The whole unused loop of `OptUdeps::run` over the three kind triples, in
source order: normal, then development, then build. -/
def aggregateAll (ignores : PkgId → IgnoreCfg) (manifest_path : PkgId → String)
    (st : RunState) :
    List (PkgId × OutcomeUnusedDeps) × List (PkgId × DepKind × Name) :=
  aggregatePass ignores manifest_path .build (st.usedOf .build)
    (aggregatePass ignores manifest_path .development (st.usedOf .development)
      (aggregatePass ignores manifest_path .normal (st.usedOf .normal)
        ([], []) (st.depsOf .normal))
      (st.depsOf .development))
    (st.depsOf .build)

/-- Embeds `outcome.success = outcome.unused_deps.values().all(...)`. -/
def computeSuccess (out : List (PkgId × OutcomeUnusedDeps)) : Bool :=
  out.all fun p => p.2.normal.isEmpty && p.2.development.isEmpty && p.2.build.isEmpty

/-- The inputs `OptUdeps::run` draws on after compilation: the workspace
members' name tables (`dependency_names`), the recorded local invocations
(`data.relevant_cmd_infos`, in order), the filesystem holding the
save-analysis artifacts (`None` = absent or unreadable), each package's
`package.metadata.cargo-udeps.ignore` configuration, and each package's
manifest path. -/
structure UdepsInput where
  dependency_names : List (PkgId × DependencyNames)
  cmd_infos : List CmdInfo
  fs : String → Option CrateSaveAnalysis
  ignores : PkgId → IgnoreCfg
  manifest_path : PkgId → String

/-- The result of a successful `OptUdeps::run`: the final accumulators, the
`Outcome`, the "Ignoring ..." informational log entries, and the returned
exit code (`0` on success, `1` otherwise; `run` passes a non-zero value to
`CliError::code`). -/
structure RunResult where
  state : RunState
  outcome : Outcome
  ignoredLog : List (PkgId × DepKind × Name)
  exitCode : Nat
deriving DecidableEq, Repr

/-- Embeds the reconciliation phase of `OptUdeps::run`: process every recorded
invocation (hard error on a missing artifact), run the unused loop, compute
`success` and the exit code. -/
def runUdeps (inp : UdepsInput) : Except String RunResult :=
  match inp.cmd_infos.foldlM (processCmdInfo inp.dependency_names inp.fs)
      (initialState inp.dependency_names) with
  | .error e => .error e
  | .ok st =>
    let agg := aggregateAll inp.ignores inp.manifest_path st
    let success := computeSuccess agg.1
    .ok
      { state := st
        outcome := { success := success, unused_deps := agg.1 }
        ignoredLog := agg.2
        exitCode := if success then 0 else 1 }

/-- The kind-`K` unused set reported for package `P` in an outcome map. -/
def outKind (out : List (PkgId × OutcomeUnusedDeps)) (P : PkgId) (K : DepKind) :
    List Name :=
  match alookup out P with
  | some e => e.getKind K
  | none => []

/-! ## Generic fold lemmas -/

instance exceptDecEq {ε α : Type} [DecidableEq ε] [DecidableEq α] :
    DecidableEq (Except ε α) := fun x y =>
  match x, y with
  | .ok a, .ok b =>
    if h : a = b then isTrue (by rw [h]) else isFalse (fun hh => h (Except.ok.inj hh))
  | .error a, .error b =>
    if h : a = b then isTrue (by rw [h]) else isFalse (fun hh => h (Except.error.inj hh))
  | .ok _, .error _ => isFalse (fun hh => by cases hh)
  | .error _, .ok _ => isFalse (fun hh => by cases hh)

theorem except_bind_error {ε α β : Type} (e : ε) (g : α → Except ε β) :
    (Except.error e >>= g) = Except.error e := rfl

theorem except_bind_ok {ε α β : Type} (a : α) (g : α → Except ε β) :
    (Except.ok a >>= g) = g a := rfl

theorem foldl_mem_mono {α β : Type} (f : List α → β → List α)
    (hf : ∀ l b x, x ∈ l → x ∈ f l b) :
    ∀ (bs : List β) (l : List α) (x : α), x ∈ l → x ∈ bs.foldl f l
  | [], _, _, h => h
  | b :: bs, l, x, h => foldl_mem_mono f hf bs (f l b) x (hf l b x h)

theorem foldl_mem_insert {α β : Type} (f : List α → β → List α)
    (hf : ∀ l b x, x ∈ l → x ∈ f l b) {b : β} {x : α}
    (hx : ∀ l, x ∈ f l b) :
    ∀ (bs : List β), b ∈ bs → ∀ (l : List α), x ∈ bs.foldl f l
  | [], hb, _ => absurd hb (List.not_mem_nil b)
  | b1 :: bs, hb, l => by
    rcases List.mem_cons.1 hb with rfl | hb1
    · exact foldl_mem_mono f hf bs (f l b) x (hx l)
    · exact foldl_mem_insert f hf hx bs hb1 (f l b1)

theorem foldl_mem_origin {α β : Type} (f : List α → β → List α)
    (Q : β → α → Prop)
    (hf : ∀ l b x, x ∈ f l b → x ∈ l ∨ Q b x) :
    ∀ (bs : List β) (l : List α) (x : α),
      x ∈ bs.foldl f l → x ∈ l ∨ ∃ b ∈ bs, Q b x
  | [], _, _, h => Or.inl h
  | b :: bs, l, x, h => by
    rcases foldl_mem_origin f Q hf bs (f l b) x h with h1 | ⟨b1, hb1, hq⟩
    · rcases hf l b x h1 with h2 | h2
      · exact Or.inl h2
      · exact Or.inr ⟨b, List.mem_cons_self _ _, h2⟩
    · exact Or.inr ⟨b1, List.mem_cons_of_mem _ hb1, hq⟩

/-! ## Lemmas about `collectNames` -/

theorem collectNames_used_mono (pkg : PkgId) (analysis : CrateSaveAnalysis)
    (externs : List (String × String)) (v : DependencyNamesValue)
    (used deps : List (PkgId × Name)) {x : PkgId × Name} (h : x ∈ used) :
    x ∈ (collectNames pkg analysis externs v used deps).1 := by
  unfold collectNames
  refine foldl_mem_mono _ ?_ _ _ _ h
  intro l b y hy
  dsimp only
  split
  · exact foldl_mem_mono _ (fun l1 b1 z hz => mem_sinsert_of_mem _ hz) _ _ _ hy
  · exact hy

theorem collectNames_deps_mono (pkg : PkgId) (analysis : CrateSaveAnalysis)
    (externs : List (String × String)) (v : DependencyNamesValue)
    (used deps : List (PkgId × Name)) {x : PkgId × Name} (h : x ∈ deps) :
    x ∈ (collectNames pkg analysis externs v used deps).2 := by
  unfold collectNames
  refine foldl_mem_mono _ ?_ _ _ _ h
  intro l b y hy
  dsimp only
  split
  · exact mem_sinsert_of_mem _ hy
  · exact hy

theorem collectNames_deps_insert (pkg : PkgId) (analysis : CrateSaveAnalysis)
    (externs : List (String × String)) (v : DependencyNamesValue)
    (used deps : List (PkgId × Name)) {al pth : String} {n : Name}
    (hex : (al, pth) ∈ externs)
    (hlk : alookup v.by_extern_crate_name al = some n) :
    (pkg, n) ∈ (collectNames pkg analysis externs v used deps).2 := by
  unfold collectNames
  refine foldl_mem_insert _ ?_ ?_ _ hex _
  · intro l b y hy
    dsimp only
    split
    · exact mem_sinsert_of_mem _ hy
    · exact hy
  · intro l
    dsimp only
    rw [hlk]
    exact mem_sinsert_self l (pkg, n)

theorem collectNames_used_insert (pkg : PkgId) (analysis : CrateSaveAnalysis)
    (externs : List (String × String)) (v : DependencyNamesValue)
    (used deps : List (PkgId × Name)) {ext : String} {names : List Name} {n : Name}
    (hext : ext ∈ analysis.external_crates)
    (hlk : alookup v.by_lib_true_snakecased_name ext = some names)
    (hn : n ∈ names) :
    (pkg, n) ∈ (collectNames pkg analysis externs v used deps).1 := by
  unfold collectNames
  refine foldl_mem_insert _ ?_ ?_ _ hext _
  · intro l b y hy
    dsimp only
    split
    · exact foldl_mem_mono _ (fun l1 b1 z hz => mem_sinsert_of_mem _ hz) _ _ _ hy
    · exact hy
  · intro l
    dsimp only
    rw [hlk]
    refine foldl_mem_insert _ ?_ ?_ _ hn _
    · exact fun l1 b1 z hz => mem_sinsert_of_mem _ hz
    · exact fun l1 => mem_sinsert_self l1 (pkg, n)

theorem collectNames_used_origin (pkg : PkgId) (analysis : CrateSaveAnalysis)
    (externs : List (String × String)) (v : DependencyNamesValue)
    (used deps : List (PkgId × Name)) {x : PkgId × Name}
    (h : x ∈ (collectNames pkg analysis externs v used deps).1) :
    x ∈ used ∨
      (x.1 = pkg ∧ ∃ ext ∈ analysis.external_crates, ∃ ns,
        alookup v.by_lib_true_snakecased_name ext = some ns ∧ x.2 ∈ ns) := by
  unfold collectNames at h
  have h0 := foldl_mem_origin _
    (fun (ext : String) (y : PkgId × Name) =>
      y.1 = pkg ∧ ∃ ns, alookup v.by_lib_true_snakecased_name ext = some ns ∧ y.2 ∈ ns)
    ?_ _ _ _ h
  · rcases h0 with h1 | ⟨ext, hext, hy, ns, hns, hmem⟩
    · exact Or.inl h1
    · exact Or.inr ⟨hy, ext, hext, ns, hns, hmem⟩
  · intro l b y hy
    split at hy
    · next ns hns =>
      have h2 := foldl_mem_origin _ (fun (n : Name) (z : PkgId × Name) => z = (pkg, n))
        ?_ _ _ _ hy
      · rcases h2 with h3 | ⟨n, hn, rfl⟩
        · exact Or.inl h3
        · exact Or.inr ⟨rfl, ns, hns, hn⟩
      · intro l1 b1 z hz
        rcases (mem_sinsert_iff l1 (pkg, b1) z).1 hz with h4 | h4
        · exact Or.inl h4
        · exact Or.inr h4
    · exact Or.inl hy

/-! ## Lemmas about the invocation-processing phase -/

/-- Componentwise membership inclusion between two accumulator states; the
processing loop only ever inserts, so it is monotone for this relation. -/
def subState (a b : RunState) : Prop :=
  (∀ x ∈ a.used_normal_dev, x ∈ b.used_normal_dev) ∧
  (∀ x ∈ a.used_build, x ∈ b.used_build) ∧
  (∀ x ∈ a.normal_deps, x ∈ b.normal_deps) ∧
  (∀ x ∈ a.dev_deps, x ∈ b.dev_deps) ∧
  (∀ x ∈ a.build_deps, x ∈ b.build_deps)

theorem subState_refl (a : RunState) : subState a a :=
  ⟨fun _ h => h, fun _ h => h, fun _ h => h, fun _ h => h, fun _ h => h⟩

theorem subState_trans {a b c : RunState} (h1 : subState a b) (h2 : subState b c) :
    subState a c :=
  ⟨fun x h => h2.1 x (h1.1 x h),
   fun x h => h2.2.1 x (h1.2.1 x h),
   fun x h => h2.2.2.1 x (h1.2.2.1 x h),
   fun x h => h2.2.2.2.1 x (h1.2.2.2.1 x h),
   fun x h => h2.2.2.2.2 x (h1.2.2.2.2 x h)⟩

theorem applyCmd_subState (pkg : PkgId) (analysis : CrateSaveAnalysis)
    (externs : List (String × String)) (dn : DependencyNames) (st : RunState) :
    subState st (applyCmd pkg analysis externs dn st) := by
  refine ⟨?_, ?_, ?_, ?_, ?_⟩
  · intro x h
    rw [applyCmd_used_normal_dev]
    exact collectNames_used_mono _ _ _ _ _ _ (collectNames_used_mono _ _ _ _ _ _ h)
  · intro x h
    rw [applyCmd_used_build]
    exact collectNames_used_mono _ _ _ _ _ _ h
  · intro x h
    rw [applyCmd_normal_deps]
    exact collectNames_deps_mono _ _ _ _ _ _ h
  · intro x h
    rw [applyCmd_dev_deps]
    exact collectNames_deps_mono _ _ _ _ _ _ h
  · intro x h
    rw [applyCmd_build_deps]
    exact collectNames_deps_mono _ _ _ _ _ _ h

theorem processCmdInfo_subState {dns : List (PkgId × DependencyNames)}
    {fs : String → Option CrateSaveAnalysis} {st : RunState} {c : CmdInfo}
    {st1 : RunState} (h : processCmdInfo dns fs st c = .ok st1) :
    subState st st1 := by
  unfold processCmdInfo at h
  split at h
  · exact absurd h (by simp)
  · split at h
    · obtain rfl := Except.ok.inj h
      exact subState_refl st
    · obtain rfl := Except.ok.inj h
      exact applyCmd_subState _ _ _ _ _

theorem processCmdInfo_ok_fs {dns : List (PkgId × DependencyNames)}
    {fs : String → Option CrateSaveAnalysis} {st : RunState} {c : CmdInfo}
    {st1 : RunState} (h : processCmdInfo dns fs st c = .ok st1) :
    ∃ analysis, fs c.get_save_analysis_path = some analysis := by
  unfold processCmdInfo at h
  split at h
  · exact absurd h (by simp)
  · next analysis heq => exact ⟨analysis, heq⟩

theorem foldCmds_subState {dns : List (PkgId × DependencyNames)}
    {fs : String → Option CrateSaveAnalysis} :
    ∀ {cs : List CmdInfo} {st fin : RunState},
      cs.foldlM (processCmdInfo dns fs) st = .ok fin → subState st fin := by
  intro cs
  induction cs with
  | nil =>
    intro st fin h
    simp only [List.foldlM_nil] at h
    obtain rfl : st = fin := Except.ok.inj h
    exact subState_refl st
  | cons c cs ih =>
    intro st fin h
    rw [List.foldlM_cons] at h
    cases hstep : processCmdInfo dns fs st c with
    | error e =>
      rw [hstep, except_bind_error] at h
      exact absurd h (by simp)
    | ok st1 =>
      rw [hstep, except_bind_ok] at h
      exact subState_trans (processCmdInfo_subState hstep) (ih h)

theorem foldCmds_exists_step {dns : List (PkgId × DependencyNames)}
    {fs : String → Option CrateSaveAnalysis} :
    ∀ {cs : List CmdInfo} {st fin : RunState},
      cs.foldlM (processCmdInfo dns fs) st = .ok fin →
      ∀ c ∈ cs, ∃ a b, processCmdInfo dns fs a c = .ok b ∧ subState b fin := by
  intro cs
  induction cs with
  | nil =>
    intro st fin _ c hc
    exact absurd hc (List.not_mem_nil c)
  | cons c0 cs ih =>
    intro st fin h c hc
    rw [List.foldlM_cons] at h
    cases hstep : processCmdInfo dns fs st c0 with
    | error e =>
      rw [hstep, except_bind_error] at h
      exact absurd h (by simp)
    | ok st1 =>
      rw [hstep, except_bind_ok] at h
      rcases List.mem_cons.1 hc with rfl | hc1
      · exact ⟨st, st1, hstep, foldCmds_subState h⟩
      · exact ih h c hc1

/-- The usage attributed to `(c.pkg, x.2)` by the processing of invocation `c`
for the used-accumulator consulted for kind `K`: some kind in `K`'s group maps
a library name of the artifact to a set containing `x.2`. -/
def usedOriginAt (dns : List (PkgId × DependencyNames))
    (fs : String → Option CrateSaveAnalysis) (K : DepKind) (c : CmdInfo)
    (x : PkgId × Name) : Prop :=
  x.1 = c.pkg ∧
    ∃ dn, alookup dns c.pkg = some dn ∧
      ∃ analysis, fs c.get_save_analysis_path = some analysis ∧
        ∃ K1 ∈ kindGroup K, ∃ ext ∈ analysis.external_crates, ∃ ns,
          alookup ((dn.get K1).by_lib_true_snakecased_name) ext = some ns ∧ x.2 ∈ ns

theorem processCmdInfo_used_origin {dns : List (PkgId × DependencyNames)}
    {fs : String → Option CrateSaveAnalysis} {st : RunState} {c : CmdInfo}
    {st1 : RunState} (h : processCmdInfo dns fs st c = .ok st1) (K : DepKind)
    {x : PkgId × Name} (hm : x ∈ st1.usedOf K) :
    x ∈ st.usedOf K ∨ usedOriginAt dns fs K c x := by
  unfold processCmdInfo at h
  split at h
  · exact absurd h (by simp)
  · next analysis hfs =>
    split at h
    · obtain rfl := Except.ok.inj h
      exact Or.inl hm
    · next dn hdn =>
      obtain rfl := Except.ok.inj h
      cases K with
      | build =>
        simp only [RunState.usedOf, applyCmd_used_build] at hm
        have hx := collectNames_used_origin _ _ _ _ _ _ hm
        rcases hx with h1 | ⟨h1, ext, hext, ns, hns, hmem⟩
        · exact Or.inl h1
        · exact Or.inr ⟨h1, dn, hdn, analysis, hfs,
            DepKind.build, List.mem_singleton.2 rfl, ext, hext, ns, hns, hmem⟩
      | normal =>
        simp only [RunState.usedOf, applyCmd_used_normal_dev] at hm
        have hx := collectNames_used_origin _ _ _ _ _ _ hm
        rcases hx with h1 | ⟨h1, ext, hext, ns, hns, hmem⟩
        · rcases collectNames_used_origin _ _ _ _ _ _ h1 with h2 | ⟨h2, ext, hext, ns, hns, hmem⟩
          · exact Or.inl h2
          · exact Or.inr ⟨h2, dn, hdn, analysis, hfs,
              DepKind.normal, List.mem_cons_self _ _, ext, hext, ns, hns, hmem⟩
        · exact Or.inr ⟨h1, dn, hdn, analysis, hfs,
            DepKind.development, List.mem_cons_of_mem _ (List.mem_singleton.2 rfl),
            ext, hext, ns, hns, hmem⟩
      | development =>
        simp only [RunState.usedOf, applyCmd_used_normal_dev] at hm
        have hx := collectNames_used_origin _ _ _ _ _ _ hm
        rcases hx with h1 | ⟨h1, ext, hext, ns, hns, hmem⟩
        · rcases collectNames_used_origin _ _ _ _ _ _ h1 with h2 | ⟨h2, ext, hext, ns, hns, hmem⟩
          · exact Or.inl h2
          · exact Or.inr ⟨h2, dn, hdn, analysis, hfs,
              DepKind.normal, List.mem_cons_self _ _, ext, hext, ns, hns, hmem⟩
        · exact Or.inr ⟨h1, dn, hdn, analysis, hfs,
            DepKind.development, List.mem_cons_of_mem _ (List.mem_singleton.2 rfl),
            ext, hext, ns, hns, hmem⟩

theorem foldCmds_used_origin {dns : List (PkgId × DependencyNames)}
    {fs : String → Option CrateSaveAnalysis} :
    ∀ {cs : List CmdInfo} {st fin : RunState},
      cs.foldlM (processCmdInfo dns fs) st = .ok fin →
      ∀ (K : DepKind) (x : PkgId × Name), x ∈ fin.usedOf K →
        x ∈ st.usedOf K ∨ ∃ c ∈ cs, usedOriginAt dns fs K c x := by
  intro cs
  induction cs with
  | nil =>
    intro st fin h K x hm
    simp only [List.foldlM_nil] at h
    obtain rfl : st = fin := Except.ok.inj h
    exact Or.inl hm
  | cons c0 cs ih =>
    intro st fin h K x hm
    rw [List.foldlM_cons] at h
    cases hstep : processCmdInfo dns fs st c0 with
    | error e =>
      rw [hstep, except_bind_error] at h
      exact absurd h (by simp)
    | ok st1 =>
      rw [hstep, except_bind_ok] at h
      rcases ih h K x hm with h1 | ⟨c, hc, ho⟩
      · rcases processCmdInfo_used_origin hstep K h1 with h2 | h2
        · exact Or.inl h2
        · exact Or.inr ⟨c0, List.mem_cons_self _ _, h2⟩
      · exact Or.inr ⟨c, List.mem_cons_of_mem _ hc, ho⟩

theorem initialState_deps_mem {dns : List (PkgId × DependencyNames)}
    {P : PkgId} {dn : DependencyNames} (hdn : (P, dn) ∈ dns) (K : DepKind)
    {d : Name} (hd : d ∈ (dn.get K).non_lib) :
    (P, d) ∈ (initialState dns).depsOf K := by
  have hmono : ∀ (l : List (PkgId × Name)) (b : PkgId × DependencyNames)
      (x : PkgId × Name) (sel : DependencyNames → DependencyNamesValue),
      x ∈ l → x ∈ (sel b.2).non_lib.foldl (fun a s => sinsert a (b.1, s)) l :=
    fun l b x sel h =>
      foldl_mem_mono _ (fun l1 b1 z hz => mem_sinsert_of_mem _ hz) _ _ _ h
  have hins : ∀ (sel : DependencyNames → DependencyNamesValue),
      d ∈ (sel dn).non_lib →
      ∀ l, (P, d) ∈ dns.foldl
        (fun a p => (sel p.2).non_lib.foldl (fun a s => sinsert a (p.1, s)) a) l := by
    intro sel hsel l
    refine foldl_mem_insert _ ?_ ?_ _ hdn _
    · exact fun l1 b1 z hz => hmono l1 b1 z sel hz
    · intro l1
      refine foldl_mem_insert _ ?_ ?_ _ hsel _
      · exact fun l2 b2 z hz => mem_sinsert_of_mem _ hz
      · exact fun l2 => mem_sinsert_self l2 (P, d)
  cases K with
  | normal => exact hins (fun dn => dn.normal) hd _
  | development => exact hins (fun dn => dn.development) hd _
  | build => exact hins (fun dn => dn.build) hd _

theorem subState_depsOf {a b : RunState} (h : subState a b) (K : DepKind)
    {x : PkgId × Name} (hx : x ∈ a.depsOf K) : x ∈ b.depsOf K := by
  cases K with
  | normal => exact h.2.2.1 x hx
  | development => exact h.2.2.2.1 x hx
  | build => exact h.2.2.2.2 x hx

theorem subState_usedOf {a b : RunState} (h : subState a b) (K : DepKind)
    {x : PkgId × Name} (hx : x ∈ a.usedOf K) : x ∈ b.usedOf K := by
  cases K with
  | normal => exact h.1 x hx
  | development => exact h.1 x hx
  | build => exact h.2.1 x hx

theorem initialState_usedOf (dns : List (PkgId × DependencyNames)) (K : DepKind) :
    (initialState dns).usedOf K = [] := by
  cases K <;> rfl

theorem processCmdInfo_ok_member {dns : List (PkgId × DependencyNames)}
    {fs : String → Option CrateSaveAnalysis} {st : RunState} {c : CmdInfo}
    {st1 : RunState} {dn : DependencyNames}
    (h : processCmdInfo dns fs st c = .ok st1)
    (hdn : alookup dns c.pkg = some dn) :
    ∃ analysis, fs c.get_save_analysis_path = some analysis ∧
      st1 = applyCmd c.pkg analysis c.externs dn st := by
  unfold processCmdInfo at h
  split at h
  · exact absurd h (by simp)
  · next analysis hfs =>
    split at h
    · next hnone => rw [hdn] at hnone; cases hnone
    · next dn1 hdn1 =>
      rw [hdn] at hdn1
      obtain rfl := Option.some.inj hdn1
      exact ⟨analysis, hfs, (Except.ok.inj h).symm⟩

/-- The second `collect_names` loop: an invocation's `--extern` alias found in
`by_extern_crate_name` of kind `K` lands in the kind-`K`
declared-dependencies accumulator. -/
theorem applyCmd_deps_insert (pkg : PkgId) (analysis : CrateSaveAnalysis)
    (externs : List (String × String)) (dn : DependencyNames) (st : RunState)
    (K : DepKind) {al pth : String} {n : Name}
    (hex : (al, pth) ∈ externs)
    (hlk : alookup ((dn.get K).by_extern_crate_name) al = some n) :
    (pkg, n) ∈ (applyCmd pkg analysis externs dn st).depsOf K := by
  cases K with
  | normal =>
    show (pkg, n) ∈ (applyCmd pkg analysis externs dn st).normal_deps
    rw [applyCmd_normal_deps]
    exact collectNames_deps_insert _ _ _ _ _ _ hex hlk
  | development =>
    show (pkg, n) ∈ (applyCmd pkg analysis externs dn st).dev_deps
    rw [applyCmd_dev_deps]
    exact collectNames_deps_insert _ _ _ _ _ _ hex hlk
  | build =>
    show (pkg, n) ∈ (applyCmd pkg analysis externs dn st).build_deps
    rw [applyCmd_build_deps]
    exact collectNames_deps_insert _ _ _ _ _ _ hex hlk

/-- The first `collect_names` loop: a library name of the artifact found in
`by_lib_true_snakecased_name` of kind `K` marks every mapped `name_in_toml`
used in the accumulator consulted for `K`. -/
theorem applyCmd_used_insert (pkg : PkgId) (analysis : CrateSaveAnalysis)
    (externs : List (String × String)) (dn : DependencyNames) (st : RunState)
    (K : DepKind) {ext : String} {ns : List Name} {n : Name}
    (hext : ext ∈ analysis.external_crates)
    (hlk : alookup ((dn.get K).by_lib_true_snakecased_name) ext = some ns)
    (hn : n ∈ ns) :
    (pkg, n) ∈ (applyCmd pkg analysis externs dn st).usedOf K := by
  cases K with
  | normal =>
    show (pkg, n) ∈ (applyCmd pkg analysis externs dn st).used_normal_dev
    rw [applyCmd_used_normal_dev]
    exact collectNames_used_mono _ _ _ _ _ _
      (collectNames_used_insert _ _ _ _ _ _ hext hlk hn)
  | development =>
    show (pkg, n) ∈ (applyCmd pkg analysis externs dn st).used_normal_dev
    rw [applyCmd_used_normal_dev]
    exact collectNames_used_insert _ _ _ _ _ _ hext hlk hn
  | build =>
    show (pkg, n) ∈ (applyCmd pkg analysis externs dn st).used_build
    rw [applyCmd_used_build]
    exact collectNames_used_insert _ _ _ _ _ _ hext hlk hn

/-! ## Lemmas about the unused-loop aggregation -/

theorem alookup_orInsertEntry_self (out : List (PkgId × OutcomeUnusedDeps))
    (id : PkgId) (mp : String) :
    alookup (orInsertEntry out id mp) id =
      some ((alookup out id).getD (OutcomeUnusedDeps.new mp)) := by
  induction out with
  | nil => simp [orInsertEntry, alookup]
  | cons p out ih =>
    obtain ⟨i, e⟩ := p
    by_cases hi : i = id
    · subst hi
      simp [orInsertEntry, alookup]
    · simp only [orInsertEntry, if_neg hi, alookup, ih]

theorem alookup_orInsertEntry_ne (out : List (PkgId × OutcomeUnusedDeps))
    (id : PkgId) (mp : String) {P : PkgId} (hP : P ≠ id) :
    alookup (orInsertEntry out id mp) P = alookup out P := by
  induction out with
  | nil =>
    simp only [orInsertEntry, alookup]
    rw [if_neg (fun h => hP h.symm)]
  | cons p out ih =>
    obtain ⟨i, e⟩ := p
    by_cases hi : i = id
    · subst hi
      simp [orInsertEntry, alookup]
    · simp only [orInsertEntry, if_neg hi, alookup]
      by_cases hiP : i = P
      · rw [if_pos hiP, if_pos hiP]
      · rw [if_neg hiP, if_neg hiP, ih]

theorem alookup_insertUnused_self (out : List (PkgId × OutcomeUnusedDeps))
    (id : PkgId) (k : DepKind) (d : Name) :
    alookup (insertUnused out id k d) id =
      (alookup out id).map (fun e => e.insertKind k d) := by
  induction out with
  | nil => simp [insertUnused, alookup]
  | cons p out ih =>
    obtain ⟨i, e⟩ := p
    by_cases hi : i = id
    · subst hi
      simp [insertUnused, alookup]
    · simp only [insertUnused, if_neg hi, alookup]
      exact ih

theorem alookup_insertUnused_ne (out : List (PkgId × OutcomeUnusedDeps))
    (id : PkgId) (k : DepKind) (d : Name) {P : PkgId} (hP : P ≠ id) :
    alookup (insertUnused out id k d) P = alookup out P := by
  induction out with
  | nil => simp [insertUnused, alookup]
  | cons p out ih =>
    obtain ⟨i, e⟩ := p
    by_cases hi : i = id
    · subst hi
      simp only [insertUnused, if_pos rfl, alookup]
      rw [if_neg (fun h => hP h.symm), if_neg (fun h => hP h.symm)]
    · simp only [insertUnused, if_neg hi, alookup]
      by_cases hiP : i = P
      · rw [if_pos hiP, if_pos hiP]
      · rw [if_neg hiP, if_neg hiP, ih]

theorem getKind_new (mp : String) (K : DepKind) :
    (OutcomeUnusedDeps.new mp).getKind K = [] := by
  cases K <;> rfl

theorem getKind_insertKind_self (e : OutcomeUnusedDeps) (k : DepKind) (d : Name) :
    (e.insertKind k d).getKind k = sinsert (e.getKind k) d := by
  cases k <;> rfl

theorem getKind_insertKind_ne (e : OutcomeUnusedDeps) {k K : DepKind} (d : Name)
    (h : K ≠ k) : (e.insertKind k d).getKind K = e.getKind K := by
  cases K <;> cases k <;> first
    | exact absurd rfl h
    | rfl

theorem outKind_orInsertEntry (out : List (PkgId × OutcomeUnusedDeps))
    (id : PkgId) (mp : String) (P : PkgId) (K : DepKind) :
    outKind (orInsertEntry out id mp) P K = outKind out P K := by
  by_cases hP : P = id
  · subst hP
    rw [outKind, alookup_orInsertEntry_self]
    cases halo : alookup out P with
    | none => simp [outKind, halo, getKind_new]
    | some e => simp [outKind, halo]
  · rw [outKind, alookup_orInsertEntry_ne out id mp hP, outKind]

theorem outKind_eq_getD (out : List (PkgId × OutcomeUnusedDeps)) (P : PkgId)
    (K : DepKind) (mp : String) :
    outKind out P K = ((alookup out P).getD (OutcomeUnusedDeps.new mp)).getKind K := by
  cases h : alookup out P with
  | none => simp [outKind, h, getKind_new]
  | some e => simp [outKind, h]

theorem mem_outKind_insert_orInsert (out : List (PkgId × OutcomeUnusedDeps))
    (id : PkgId) (mp : String) (k : DepKind) (d : Name) (P : PkgId) (K : DepKind)
    (x : Name) :
    x ∈ outKind (insertUnused (orInsertEntry out id mp) id k d) P K ↔
      x ∈ outKind out P K ∨ (P = id ∧ K = k ∧ x = d) := by
  by_cases hP : P = id
  · subst hP
    have h1 : outKind (insertUnused (orInsertEntry out P mp) P k d) P K =
        (((alookup out P).getD (OutcomeUnusedDeps.new mp)).insertKind k d).getKind K := by
      rw [outKind_eq_getD _ _ _ mp, alookup_insertUnused_self, alookup_orInsertEntry_self]
      simp
    rw [h1, outKind_eq_getD out P K mp]
    by_cases hK : K = k
    · subst hK
      rw [getKind_insertKind_self, mem_sinsert_iff]
      simp
    · rw [getKind_insertKind_ne _ _ hK]
      simp [hK]
  · have h1 : outKind (insertUnused (orInsertEntry out id mp) id k d) P K =
        outKind out P K := by
      rw [outKind_eq_getD _ _ _ mp, alookup_insertUnused_ne _ _ _ _ hP,
        alookup_orInsertEntry_ne _ _ _ hP, outKind_eq_getD out P K mp]
    rw [h1]
    simp [hP]

theorem mem_outKind_stepCandidate (ignores : PkgId → IgnoreCfg)
    (manifest_path : PkgId → String) (kind : DepKind) (used : List (PkgId × Name))
    (acc : List (PkgId × OutcomeUnusedDeps) × List (PkgId × DepKind × Name))
    (c : PkgId × Name) (P : PkgId) (K : DepKind) (x : Name) :
    x ∈ outKind (stepCandidate ignores manifest_path kind used acc c).1 P K ↔
      x ∈ outKind acc.1 P K ∨
        ((P, x) = c ∧ K = kind ∧ (P, x) ∉ used ∧
          (ignores P).containsDep kind x = false) := by
  unfold stepCandidate
  by_cases hc : c ∈ used
  · rw [if_pos hc]
    constructor
    · exact Or.inl
    · rintro (h | ⟨rfl, _, hnu, _⟩)
      · exact h
      · exact absurd hc hnu
  · rw [if_neg hc]
    by_cases hig : (ignores c.1).containsDep kind c.2 = true
    · rw [if_pos hig]
      rw [outKind_orInsertEntry]
      constructor
      · exact Or.inl
      · rintro (h | ⟨rfl, _, _, hig1⟩)
        · exact h
        · rw [hig1] at hig; cases hig
    · rw [if_neg (by simp [hig])]
      rw [mem_outKind_insert_orInsert]
      constructor
      · rintro (h | ⟨hP, hK, hx⟩)
        · exact Or.inl h
        · refine Or.inr ⟨?_, hK, ?_, ?_⟩
          · rw [hP, hx]
          · rw [hP, hx]; exact hc
          · rw [hP, hx]
            exact Bool.not_eq_true _ ▸ hig
      · rintro (h | ⟨hpx, hK, _, _⟩)
        · exact Or.inl h
        · refine Or.inr ⟨?_, hK, ?_⟩
          · rw [← hpx]
          · rw [← hpx]

theorem mem_log_stepCandidate (ignores : PkgId → IgnoreCfg)
    (manifest_path : PkgId → String) (kind : DepKind) (used : List (PkgId × Name))
    (acc : List (PkgId × OutcomeUnusedDeps) × List (PkgId × DepKind × Name))
    (c : PkgId × Name) (l : PkgId × DepKind × Name) :
    l ∈ (stepCandidate ignores manifest_path kind used acc c).2 ↔
      l ∈ acc.2 ∨
        (c ∉ used ∧ (ignores c.1).containsDep kind c.2 = true ∧
          l = (c.1, kind, c.2)) := by
  unfold stepCandidate
  by_cases hc : c ∈ used
  · rw [if_pos hc]
    constructor
    · exact Or.inl
    · rintro (h | ⟨hnu, _, _⟩)
      · exact h
      · exact absurd hc hnu
  · rw [if_neg hc]
    by_cases hig : (ignores c.1).containsDep kind c.2 = true
    · rw [if_pos hig]
      simp only [List.mem_append, List.mem_singleton]
      constructor
      · rintro (h | h)
        · exact Or.inl h
        · exact Or.inr ⟨hc, hig, h⟩
      · rintro (h | ⟨_, _, h⟩)
        · exact Or.inl h
        · exact Or.inr h
    · rw [if_neg (by simp [hig])]
      constructor
      · exact Or.inl
      · rintro (h | ⟨_, hig1, _⟩)
        · exact h
        · exact absurd hig1 hig

theorem mem_outKind_aggregatePass (ignores : PkgId → IgnoreCfg)
    (manifest_path : PkgId → String) (kind : DepKind) (used : List (PkgId × Name))
    (P : PkgId) (K : DepKind) (x : Name) :
    ∀ (deps : List (PkgId × Name))
      (acc : List (PkgId × OutcomeUnusedDeps) × List (PkgId × DepKind × Name)),
      x ∈ outKind (aggregatePass ignores manifest_path kind used acc deps).1 P K ↔
        (x ∈ outKind acc.1 P K ∨
          (K = kind ∧ (P, x) ∈ deps ∧ (P, x) ∉ used ∧
            (ignores P).containsDep kind x = false))
  | [], acc => by simp [aggregatePass]
  | dp :: deps, acc => by
    have ih := mem_outKind_aggregatePass ignores manifest_path kind used P K x deps
      (stepCandidate ignores manifest_path kind used acc dp)
    have hstep : aggregatePass ignores manifest_path kind used acc (dp :: deps) =
        aggregatePass ignores manifest_path kind used
          (stepCandidate ignores manifest_path kind used acc dp) deps := rfl
    rw [hstep, ih, mem_outKind_stepCandidate]
    constructor
    · rintro ((h | ⟨hpx, hK, hnu, hig⟩) | ⟨hK, hmem, hnu, hig⟩)
      · exact Or.inl h
      · exact Or.inr ⟨hK, List.mem_cons.2 (Or.inl hpx), hnu, hig⟩
      · exact Or.inr ⟨hK, List.mem_cons_of_mem _ hmem, hnu, hig⟩
    · rintro (h | ⟨hK, hmem, hnu, hig⟩)
      · exact Or.inl (Or.inl h)
      · rcases List.mem_cons.1 hmem with h1 | h1
        · exact Or.inl (Or.inr ⟨h1, hK, hnu, hig⟩)
        · exact Or.inr ⟨hK, h1, hnu, hig⟩

theorem mem_log_aggregatePass (ignores : PkgId → IgnoreCfg)
    (manifest_path : PkgId → String) (kind : DepKind) (used : List (PkgId × Name))
    (l : PkgId × DepKind × Name) :
    ∀ (deps : List (PkgId × Name))
      (acc : List (PkgId × OutcomeUnusedDeps) × List (PkgId × DepKind × Name)),
      l ∈ (aggregatePass ignores manifest_path kind used acc deps).2 ↔
        (l ∈ acc.2 ∨
          ∃ c ∈ deps, c ∉ used ∧ (ignores c.1).containsDep kind c.2 = true ∧
            l = (c.1, kind, c.2))
  | [], acc => by simp [aggregatePass]
  | dp :: deps, acc => by
    have ih := mem_log_aggregatePass ignores manifest_path kind used l deps
      (stepCandidate ignores manifest_path kind used acc dp)
    have hstep : aggregatePass ignores manifest_path kind used acc (dp :: deps) =
        aggregatePass ignores manifest_path kind used
          (stepCandidate ignores manifest_path kind used acc dp) deps := rfl
    rw [hstep, ih, mem_log_stepCandidate]
    constructor
    · rintro ((h | ⟨hnu, hig, hl⟩) | ⟨c, hc, hnu, hig, hl⟩)
      · exact Or.inl h
      · exact Or.inr ⟨dp, List.mem_cons_self _ _, hnu, hig, hl⟩
      · exact Or.inr ⟨c, List.mem_cons_of_mem _ hc, hnu, hig, hl⟩
    · rintro (h | ⟨c, hc, hnu, hig, hl⟩)
      · exact Or.inl (Or.inl h)
      · rcases List.mem_cons.1 hc with h1 | h1
        · obtain rfl := h1
          exact Or.inl (Or.inr ⟨hnu, hig, hl⟩)
        · exact Or.inr ⟨c, h1, hnu, hig, hl⟩

/-- The reported kind-`K` unused set of the full unused loop: exactly the
declared-minus-used candidates that survive the ignore filter. -/
theorem mem_outKind_aggregateAll (ignores : PkgId → IgnoreCfg)
    (manifest_path : PkgId → String) (st : RunState) (P : PkgId) (K : DepKind)
    (x : Name) :
    x ∈ outKind (aggregateAll ignores manifest_path st).1 P K ↔
      ((P, x) ∈ st.depsOf K ∧ (P, x) ∉ st.usedOf K ∧
        (ignores P).containsDep K x = false) := by
  unfold aggregateAll
  rw [mem_outKind_aggregatePass, mem_outKind_aggregatePass, mem_outKind_aggregatePass]
  have hnil : outKind (([], []) :
      List (PkgId × OutcomeUnusedDeps) × List (PkgId × DepKind × Name)).1 P K = [] := by
    simp [outKind, alookup]
  rw [hnil]
  cases K <;> simp

theorem mem_log_aggregateAll (ignores : PkgId → IgnoreCfg)
    (manifest_path : PkgId → String) (st : RunState) (P : PkgId) (K : DepKind)
    (d : Name) (hd : (P, d) ∈ st.depsOf K) (hnu : (P, d) ∉ st.usedOf K)
    (hig : (ignores P).containsDep K d = true) :
    (P, K, d) ∈ (aggregateAll ignores manifest_path st).2 := by
  unfold aggregateAll
  rw [mem_log_aggregatePass, mem_log_aggregatePass, mem_log_aggregatePass]
  cases K with
  | normal => exact Or.inl (Or.inl (Or.inr ⟨(P, d), hd, hnu, hig, rfl⟩))
  | development => exact Or.inl (Or.inr ⟨(P, d), hd, hnu, hig, rfl⟩)
  | build => exact Or.inr ⟨(P, d), hd, hnu, hig, rfl⟩

/-- Inversion of a successful `runUdeps`: the final accumulators come from the
fold over the invocations, and the outcome, log and exit code are computed
from them by the unused loop. -/
theorem runUdeps_ok_elim {inp : UdepsInput} {r : RunResult}
    (h : runUdeps inp = .ok r) :
    inp.cmd_infos.foldlM (processCmdInfo inp.dependency_names inp.fs)
        (initialState inp.dependency_names) = .ok r.state ∧
      r.outcome.unused_deps = (aggregateAll inp.ignores inp.manifest_path r.state).1 ∧
      r.outcome.success = computeSuccess r.outcome.unused_deps ∧
      r.ignoredLog = (aggregateAll inp.ignores inp.manifest_path r.state).2 ∧
      r.exitCode = (if r.outcome.success = true then 0 else 1) := by
  unfold runUdeps at h
  split at h
  · exact absurd h (by simp)
  · next st hfold =>
    obtain rfl := (Except.ok.inj h).symm
    exact ⟨hfold, rfl, rfl, rfl, rfl⟩

/-! ## Lemmas about name-table construction -/

theorem get_modifyKind_self (dn : DependencyNames) (k : DepKind)
    (f : DependencyNamesValue → DependencyNamesValue) :
    (dn.modifyKind k f).get k = f (dn.get k) := by
  cases k <;> rfl

theorem get_modifyKind_ne (dn : DependencyNames) {K k : DepKind}
    (f : DependencyNamesValue → DependencyNamesValue) (h : K ≠ k) :
    (dn.modifyKind k f).get K = dn.get K := by
  cases K <;> cases k <;> first
    | exact absurd rfl h
    | rfl

theorem get_emptyNames (k : DepKind) : emptyNames.get k = emptyValue := by
  cases k <;> rfl

theorem foldNonLib_nonlib (d : Name) (k : DepKind) :
    ∀ (deps : List DepEdge) (dn : DependencyNames),
      d ∈ ((deps.foldl addNonLibEdge dn).get k).non_lib ↔
        (d ∈ (dn.get k).non_lib ∨
          ∃ edge ∈ deps, edge.kind = k ∧ edge.name_in_toml = d)
  | [], dn => by simp
  | edge :: deps, dn => by
    rw [List.foldl_cons, foldNonLib_nonlib d k deps (addNonLibEdge dn edge)]
    have hstep : d ∈ ((addNonLibEdge dn edge).get k).non_lib ↔
        (d ∈ (dn.get k).non_lib ∨ (edge.kind = k ∧ edge.name_in_toml = d)) := by
      by_cases hk : edge.kind = k
      · subst hk
        unfold addNonLibEdge
        rw [get_modifyKind_self]
        simp only [mem_sinsert_iff]
        constructor
        · rintro (h | h)
          · exact Or.inl h
          · exact Or.inr ⟨by trivial, h.symm⟩
        · rintro (h | ⟨_, h⟩)
          · exact Or.inl h
          · exact Or.inr h.symm
      · unfold addNonLibEdge
        rw [get_modifyKind_ne _ _ (fun h => hk h.symm)]
        simp [hk]
    rw [hstep]
    constructor
    · rintro ((h | ⟨hke, hne⟩) | ⟨e1, he1, hke, hne⟩)
      · exact Or.inl h
      · exact Or.inr ⟨edge, List.mem_cons_self _ _, hke, hne⟩
      · exact Or.inr ⟨e1, List.mem_cons_of_mem _ he1, hke, hne⟩
    · rintro (h | ⟨e1, he1, hke, hne⟩)
      · exact Or.inl (Or.inl h)
      · rcases List.mem_cons.1 he1 with h1 | h1
        · obtain rfl := h1
          exact Or.inl (Or.inr ⟨hke, hne⟩)
        · exact Or.inr ⟨e1, h1, hke, hne⟩

theorem foldNonLib_maps (k : DepKind) :
    ∀ (deps : List DepEdge) (dn : DependencyNames),
      ((deps.foldl addNonLibEdge dn).get k).by_extern_crate_name =
          (dn.get k).by_extern_crate_name ∧
        ((deps.foldl addNonLibEdge dn).get k).by_lib_true_snakecased_name =
          (dn.get k).by_lib_true_snakecased_name
  | [], _ => ⟨rfl, rfl⟩
  | edge :: deps, dn => by
    rw [List.foldl_cons]
    have ih := foldNonLib_maps k deps (addNonLibEdge dn edge)
    have h1 : ((addNonLibEdge dn edge).get k).by_extern_crate_name =
          (dn.get k).by_extern_crate_name ∧
        ((addNonLibEdge dn edge).get k).by_lib_true_snakecased_name =
          (dn.get k).by_lib_true_snakecased_name := by
      by_cases hk : edge.kind = k
      · subst hk
        unfold addNonLibEdge
        rw [get_modifyKind_self]
        exact ⟨rfl, rfl⟩
      · unfold addNonLibEdge
        rw [get_modifyKind_ne _ _ (fun h => hk h.symm)]
        exact ⟨rfl, rfl⟩
    exact ⟨ih.1.trans h1.1, ih.2.trans h1.2⟩

theorem foldLib_nonlib (ecn snake : String) (k : DepKind) :
    ∀ (deps : List DepEdge) (dn : DependencyNames),
      ((deps.foldl (addLibEdge ecn snake) dn).get k).non_lib = (dn.get k).non_lib
  | [], _ => rfl
  | edge :: deps, dn => by
    rw [List.foldl_cons]
    have ih := foldLib_nonlib ecn snake k deps (addLibEdge ecn snake dn edge)
    have h1 : ((addLibEdge ecn snake dn edge).get k).non_lib = (dn.get k).non_lib := by
      by_cases hk : edge.kind = k
      · subst hk
        unfold addLibEdge
        rw [get_modifyKind_self]
      · unfold addLibEdge
        rw [get_modifyKind_ne _ _ (fun h => hk h.symm)]
    exact ih.trans h1

theorem foldLib_libval (ecn snake : String) (k : DepKind) (d : Name) :
    ∀ (deps : List DepEdge) (dn : DependencyNames),
      libValMem ((deps.foldl (addLibEdge ecn snake) dn).get k).by_lib_true_snakecased_name d ↔
        (libValMem (dn.get k).by_lib_true_snakecased_name d ∨
          ∃ edge ∈ deps, edge.kind = k ∧ edge.name_in_toml = d)
  | [], dn => by simp
  | edge :: deps, dn => by
    rw [List.foldl_cons, foldLib_libval ecn snake k d deps (addLibEdge ecn snake dn edge)]
    have hstep : libValMem ((addLibEdge ecn snake dn edge).get k).by_lib_true_snakecased_name d ↔
        (libValMem (dn.get k).by_lib_true_snakecased_name d ∨
          (edge.kind = k ∧ edge.name_in_toml = d)) := by
      by_cases hk : edge.kind = k
      · subst hk
        unfold addLibEdge
        rw [get_modifyKind_self]
        show libValMem
          (minsert (dn.get edge.kind).by_lib_true_snakecased_name snake edge.name_in_toml) d ↔ _
        rw [libValMem_minsert_iff]
        constructor
        · rintro (h | h)
          · exact Or.inr ⟨by trivial, h.symm⟩
          · exact Or.inl h
        · rintro (h | ⟨_, h⟩)
          · exact Or.inr h
          · exact Or.inl h.symm
      · unfold addLibEdge
        rw [get_modifyKind_ne _ _ (fun h => hk h.symm)]
        simp [hk]
    rw [hstep]
    constructor
    · rintro ((h | ⟨hke, hne⟩) | ⟨e1, he1, hke, hne⟩)
      · exact Or.inl h
      · exact Or.inr ⟨edge, List.mem_cons_self _ _, hke, hne⟩
      · exact Or.inr ⟨e1, List.mem_cons_of_mem _ he1, hke, hne⟩
    · rintro (h | ⟨e1, he1, hke, hne⟩)
      · exact Or.inl (Or.inl h)
      · rcases List.mem_cons.1 he1 with h1 | h1
        · obtain rfl := h1
          exact Or.inl (Or.inr ⟨hke, hne⟩)
        · exact Or.inr ⟨e1, h1, hke, hne⟩

theorem foldLib_ext_origin (ecn snake : String) (k : DepKind) (a : String) (d : Name) :
    ∀ (deps : List DepEdge) (dn : DependencyNames),
      (a, d) ∈ ((deps.foldl (addLibEdge ecn snake) dn).get k).by_extern_crate_name →
        ((a, d) ∈ (dn.get k).by_extern_crate_name ∨
          ∃ edge ∈ deps, edge.kind = k ∧ edge.name_in_toml = d)
  | [], dn => fun h => Or.inl h
  | edge :: deps, dn => by
    intro h
    rw [List.foldl_cons] at h
    rcases foldLib_ext_origin ecn snake k a d deps (addLibEdge ecn snake dn edge) h with
      h1 | ⟨e1, he1, hke, hne⟩
    · by_cases hk : edge.kind = k
      · subst hk
        unfold addLibEdge at h1
        rw [get_modifyKind_self] at h1
        rcases mem_ainsert (m := (dn.get edge.kind).by_extern_crate_name) h1 with h2 | h2
        · exact Or.inr ⟨edge, List.mem_cons_self _ _, rfl, (Prod.mk.injEq _ _ _ _ ▸ h2).2.symm⟩
        · exact Or.inl h2
      · unfold addLibEdge at h1
        rw [get_modifyKind_ne _ _ (fun h => hk h.symm)] at h1
        exact Or.inl h1
    · exact Or.inr ⟨e1, List.mem_cons_of_mem _ he1, hke, hne⟩

theorem addEntry_nonlib_iff (dn : DependencyNames) (e : ResolveEntry) (k : DepKind)
    (d : Name) :
    d ∈ ((depNamesAddEntry dn e).get k).non_lib ↔
      (d ∈ (dn.get k).non_lib ∨
        (e.libName = none ∧ ∃ edge ∈ e.deps, edge.kind = k ∧ edge.name_in_toml = d)) := by
  unfold depNamesAddEntry
  cases hl : e.libName with
  | none =>
    rw [foldNonLib_nonlib]
    simp
  | some l =>
    rw [foldLib_nonlib]
    simp [hl]

theorem addEntry_libval_iff (dn : DependencyNames) (e : ResolveEntry) (k : DepKind)
    (d : Name) :
    libValMem ((depNamesAddEntry dn e).get k).by_lib_true_snakecased_name d ↔
      (libValMem (dn.get k).by_lib_true_snakecased_name d ∨
        (e.libName.isSome = true ∧
          ∃ edge ∈ e.deps, edge.kind = k ∧ edge.name_in_toml = d)) := by
  unfold depNamesAddEntry
  cases hl : e.libName with
  | none =>
    rw [(foldNonLib_maps k e.deps dn).2]
    simp [hl]
  | some l =>
    rw [foldLib_libval]
    simp [hl]

theorem addEntry_ext_origin (dn : DependencyNames) (e : ResolveEntry) (k : DepKind)
    (a : String) (d : Name)
    (h : (a, d) ∈ ((depNamesAddEntry dn e).get k).by_extern_crate_name) :
    (a, d) ∈ (dn.get k).by_extern_crate_name ∨
      (e.libName.isSome = true ∧
        ∃ edge ∈ e.deps, edge.kind = k ∧ edge.name_in_toml = d) := by
  unfold depNamesAddEntry at h
  cases hl : e.libName with
  | none =>
    rw [hl] at h
    rw [(foldNonLib_maps k e.deps dn).1] at h
    exact Or.inl h
  | some l =>
    rw [hl] at h
    rcases foldLib_ext_origin _ _ k a d e.deps dn h with h1 | h1
    · exact Or.inl h1
    · exact Or.inr ⟨rfl, h1⟩

theorem foldEntries_nonlib (k : DepKind) (d : Name) :
    ∀ (es : List ResolveEntry) (dn : DependencyNames),
      d ∈ ((es.foldl depNamesAddEntry dn).get k).non_lib ↔
        (d ∈ (dn.get k).non_lib ∨
          ∃ e ∈ es, e.libName = none ∧
            ∃ edge ∈ e.deps, edge.kind = k ∧ edge.name_in_toml = d)
  | [], dn => by simp
  | e :: es, dn => by
    rw [List.foldl_cons, foldEntries_nonlib k d es (depNamesAddEntry dn e),
      addEntry_nonlib_iff]
    constructor
    · rintro ((h | ⟨hl, hx⟩) | ⟨e1, he1, hl, hx⟩)
      · exact Or.inl h
      · exact Or.inr ⟨e, List.mem_cons_self _ _, hl, hx⟩
      · exact Or.inr ⟨e1, List.mem_cons_of_mem _ he1, hl, hx⟩
    · rintro (h | ⟨e1, he1, hl, hx⟩)
      · exact Or.inl (Or.inl h)
      · rcases List.mem_cons.1 he1 with h1 | h1
        · obtain rfl := h1
          exact Or.inl (Or.inr ⟨hl, hx⟩)
        · exact Or.inr ⟨e1, h1, hl, hx⟩

theorem foldEntries_libval (k : DepKind) (d : Name) :
    ∀ (es : List ResolveEntry) (dn : DependencyNames),
      libValMem ((es.foldl depNamesAddEntry dn).get k).by_lib_true_snakecased_name d ↔
        (libValMem (dn.get k).by_lib_true_snakecased_name d ∨
          ∃ e ∈ es, e.libName.isSome = true ∧
            ∃ edge ∈ e.deps, edge.kind = k ∧ edge.name_in_toml = d)
  | [], dn => by simp
  | e :: es, dn => by
    rw [List.foldl_cons, foldEntries_libval k d es (depNamesAddEntry dn e),
      addEntry_libval_iff]
    constructor
    · rintro ((h | ⟨hl, hx⟩) | ⟨e1, he1, hl, hx⟩)
      · exact Or.inl h
      · exact Or.inr ⟨e, List.mem_cons_self _ _, hl, hx⟩
      · exact Or.inr ⟨e1, List.mem_cons_of_mem _ he1, hl, hx⟩
    · rintro (h | ⟨e1, he1, hl, hx⟩)
      · exact Or.inl (Or.inl h)
      · rcases List.mem_cons.1 he1 with h1 | h1
        · obtain rfl := h1
          exact Or.inl (Or.inr ⟨hl, hx⟩)
        · exact Or.inr ⟨e1, h1, hl, hx⟩

theorem foldEntries_ext_origin (k : DepKind) (a : String) (d : Name) :
    ∀ (es : List ResolveEntry) (dn : DependencyNames),
      (a, d) ∈ ((es.foldl depNamesAddEntry dn).get k).by_extern_crate_name →
        ((a, d) ∈ (dn.get k).by_extern_crate_name ∨
          ∃ e ∈ es, e.libName.isSome = true ∧
            ∃ edge ∈ e.deps, edge.kind = k ∧ edge.name_in_toml = d)
  | [], dn => fun h => Or.inl h
  | e :: es, dn => by
    intro h
    rw [List.foldl_cons] at h
    rcases foldEntries_ext_origin k a d es (depNamesAddEntry dn e) h with
      h1 | ⟨e1, he1, hl, hx⟩
    · rcases addEntry_ext_origin dn e k a d h1 with h2 | ⟨hl, hx⟩
      · exact Or.inl h2
      · exact Or.inr ⟨e, List.mem_cons_self _ _, hl, hx⟩
    · exact Or.inr ⟨e1, List.mem_cons_of_mem _ he1, hl, hx⟩

theorem buildDepNames_nonlib (es : List ResolveEntry) (k : DepKind) (d : Name) :
    d ∈ ((buildDepNames es).get k).non_lib ↔
      ∃ e ∈ es, e.libName = none ∧
        ∃ edge ∈ e.deps, edge.kind = k ∧ edge.name_in_toml = d := by
  unfold buildDepNames
  rw [foldEntries_nonlib]
  rw [get_emptyNames]
  simp [emptyValue]

theorem buildDepNames_libval (es : List ResolveEntry) (k : DepKind) (d : Name) :
    libValMem ((buildDepNames es).get k).by_lib_true_snakecased_name d ↔
      ∃ e ∈ es, e.libName.isSome = true ∧
        ∃ edge ∈ e.deps, edge.kind = k ∧ edge.name_in_toml = d := by
  unfold buildDepNames
  rw [foldEntries_libval]
  rw [get_emptyNames]
  simp [emptyValue]

theorem buildDepNames_ext_origin (es : List ResolveEntry) (k : DepKind) (a : String)
    (d : Name) (h : (a, d) ∈ ((buildDepNames es).get k).by_extern_crate_name) :
    ∃ e ∈ es, e.libName.isSome = true ∧
      ∃ edge ∈ e.deps, edge.kind = k ∧ edge.name_in_toml = d := by
  unfold buildDepNames at h
  rcases foldEntries_ext_origin k a d es emptyNames h with h1 | h1
  · rw [get_emptyNames] at h1
    cases h1
  · exact h1

/-- Membership in the `ambiguous_names` output: a lib name mapped by some
selected kind's table to at least two declared names contributes every one of
those names. -/
theorem mem_ambiguousNames (dn : DependencyNames) (kinds : List DepKind)
    {K : DepKind} (hK : K ∈ kinds) {lib : String} {names : List Name}
    (hlk : alookup ((dn.get K).by_lib_true_snakecased_name) lib = some names)
    (hlen : 1 < names.length) {n : Name} (hn : n ∈ names) :
    (n, lib) ∈ ambiguousNames dn kinds := by
  unfold ambiguousNames
  refine List.mem_flatMap.2 ⟨(lib, names), ?_, ?_⟩
  · refine List.mem_filter.2 ⟨?_, ?_⟩
    · exact List.mem_flatMap.2 ⟨K, hK, alookup_mem hlk⟩
    · simpa using hlen
  · exact List.mem_map.2 ⟨n, hn, rfl⟩



/-! ## Concrete workspace examples used by witnesses and counterexamples -/

/-- A small resolved graph for member package `app`: a library dependency
`foo` (lib target `x`, extern crate name `x`) referenced only as a compiler
alias, a library dependency `bar` that the artifact reports used, a non-library
build dependency `nl`, and a non-library normal dependency `ig` that the
package ignores. -/
def Wentries : List ResolveEntry :=
  [ { to_pkg := "X", libName := some "x", externCrateName := "x",
      deps := [⟨DepKind.normal, "foo"⟩] }
  , { to_pkg := "B", libName := some "bar", externCrateName := "bar",
      deps := [⟨DepKind.normal, "bar"⟩] }
  , { to_pkg := "N", libName := none, externCrateName := "",
      deps := [⟨DepKind.build, "nl"⟩] }
  , { to_pkg := "I", libName := none, externCrateName := "",
      deps := [⟨DepKind.normal, "ig"⟩] } ]

def Wdn : DependencyNames := buildDepNames Wentries

def Wcmd : CmdInfo :=
  { pkg := "app", custom_build := false, crate_name := "app", crate_type := "bin",
    extra_filename := "-e", cap_lints_allow := false, out_dir := "o",
    externs := [("x", "px"), ("bar", "pb")] }

def Winput : UdepsInput :=
  { dependency_names := [("app", Wdn)]
    cmd_infos := [Wcmd]
    fs := fun p => if p = "o/save-analysis/app-e.json" then some ⟨["bar"]⟩ else none
    ignores := fun _ => { normal := ["ig"], development := [], build := [] }
    manifest_path := fun _ => "m" }

/-- The run result of `Winput`, spelled out. -/
def WR : RunResult :=
  { state :=
      { used_normal_dev := [("app", "bar")]
        used_build := []
        normal_deps := [("app", "ig"), ("app", "foo"), ("app", "bar")]
        dev_deps := []
        build_deps := [("app", "nl")] }
    outcome :=
      { success := false
        unused_deps :=
          [("app", { manifest_path := "m", normal := ["foo"], development := [],
                     build := ["nl"] })] }
    ignoredLog := [("app", DepKind.normal, "ig")]
    exitCode := 1 }

theorem runW_eq : runUdeps Winput = Except.ok WR := by decide

/-- Input exercising a declared library dependency whose alias never occurs in
any recorded invocation (there are none): `foo` is in the range of
`by_extern_crate_name` but the run reports nothing. -/
def C2entries : List ResolveEntry :=
  [ { to_pkg := "X", libName := some "x", externCrateName := "x",
      deps := [⟨DepKind.normal, "foo"⟩] } ]

def C2dn : DependencyNames := buildDepNames C2entries

def C2input : UdepsInput :=
  { dependency_names := [("app", C2dn)]
    cmd_infos := []
    fs := fun _ => none
    ignores := fun _ => IgnoreCfg.empty
    manifest_path := fun _ => "m" }

def C2result : RunResult :=
  { state := { used_normal_dev := [], used_build := [], normal_deps := [],
               dev_deps := [], build_deps := [] }
    outcome := { success := true, unused_deps := [] }
    ignoredLog := []
    exitCode := 0 }

theorem runC2_eq : runUdeps C2input = Except.ok C2result := by decide

/-- The spec's notion of `declared[P][K]` for one name table (a refinement
comparison definition, following the spec's words, not the source): every
`name_in_toml` in the ranges of `by_alias` and `by_library_name` plus all of
`non_library`. -/
def declaredSpec (v : DependencyNamesValue) : List Name :=
  v.by_extern_crate_name.map Prod.snd ++
    v.by_lib_true_snakecased_name.flatMap Prod.snd ++ v.non_lib

/-! ## Claims -/

/-- C1 (counterexample): the claim says an explicit `--extern` alias found in
`by_extern_crate_name` marks `(P, name_in_toml)` used even when the library
name is absent from the artifact.  In `Winput`, alias `x` of invocation `Wcmd`
maps to `foo` in `app`'s normal table and `x` is not in the artifact; after the
run, `("app", "foo")` is in no used-accumulator — it is in the declared
accumulator instead, and `foo` is reported unused. -/
theorem claim1_counterexample :
    runUdeps Winput = Except.ok WR ∧
    alookup (Wdn.get DepKind.normal).by_extern_crate_name "x" = some "foo" ∧
    ("x", "px") ∈ Wcmd.externs ∧
    Winput.fs Wcmd.get_save_analysis_path = some ⟨["bar"]⟩ ∧
    "x" ∉ (⟨["bar"]⟩ : CrateSaveAnalysis).external_crates ∧
    ("app", "foo") ∉ WR.state.usedOf DepKind.normal ∧
    ("app", "foo") ∉ WR.state.usedOf DepKind.build ∧
    "foo" ∈ outKind WR.outcome.unused_deps "app" DepKind.normal :=
  ⟨runW_eq, by decide, by decide, by decide, by decide, by decide, by decide, by decide⟩

/-- C1 (amended): for every recorded invocation of a member package and every
explicit alias/path pair in its extern list, an alias found in
`by_extern_crate_name` of kind `K` puts `(P, name_in_toml)` into the kind-`K`
*declared*-dependencies accumulator (not the used-accumulator). -/
theorem claim1_amended (inp : UdepsInput) (r : RunResult) (c : CmdInfo)
    (dn : DependencyNames) (K : DepKind) (al pth : String) (n : Name)
    (hc : c ∈ inp.cmd_infos)
    (hdn : alookup inp.dependency_names c.pkg = some dn)
    (hex : (al, pth) ∈ c.externs)
    (hlk : alookup ((dn.get K).by_extern_crate_name) al = some n)
    (hrun : runUdeps inp = .ok r) :
    (c.pkg, n) ∈ r.state.depsOf K := by
  obtain ⟨hfold, -, -, -, -⟩ := runUdeps_ok_elim hrun
  obtain ⟨a, b, hstep, hsub⟩ := foldCmds_exists_step hfold c hc
  obtain ⟨analysis, -, rfl⟩ := processCmdInfo_ok_member hstep hdn
  exact subState_depsOf hsub K (applyCmd_deps_insert _ _ _ _ _ K hex hlk)

theorem claim1_amended_witness :
    ("app", "foo") ∈ WR.state.depsOf DepKind.normal :=
  claim1_amended Winput WR Wcmd Wdn DepKind.normal "x" "px" "foo"
    (by decide) (by decide) (by decide) (by decide) runW_eq

/-- C2 (counterexample): the claim says the reported unused set is
`declared − used` with `declared` containing every `name_in_toml` in the
ranges of `by_alias`/`by_library_name` plus `non_library`.  In `C2input`,
`foo` is in the range of `by_alias` of `app`'s normal table and nothing is
used, yet the run reports no unused dependency at all: the code only declares
names whose alias occurs in some recorded invocation's extern list. -/
theorem claim2_counterexample :
    runUdeps C2input = Except.ok C2result ∧
    "foo" ∈ declaredSpec (C2dn.get DepKind.normal) ∧
    C2result.state.usedOf DepKind.normal = [] ∧
    C2result.outcome.unused_deps = [] ∧
    "foo" ∉ outKind C2result.outcome.unused_deps "app" DepKind.normal :=
  ⟨runC2_eq, by decide, by decide, by decide, by decide⟩

/-- C2 (amended): for every package `P` and kind `K`, a name is reported
unused iff it is in the kind-`K` declared accumulator (initialised from
`non_lib` and grown by extern-alias matches of recorded invocations), is not
in the kind's used-accumulator, and is not suppressed by `P`'s ignore list. -/
theorem claim2_amended (inp : UdepsInput) (r : RunResult) (P : PkgId)
    (K : DepKind) (d : Name) (hrun : runUdeps inp = .ok r) :
    d ∈ outKind r.outcome.unused_deps P K ↔
      ((P, d) ∈ r.state.depsOf K ∧ (P, d) ∉ r.state.usedOf K ∧
        (inp.ignores P).containsDep K d = false) := by
  obtain ⟨-, hout, -, -, -⟩ := runUdeps_ok_elim hrun
  rw [hout, mem_outKind_aggregateAll]

theorem claim2_amended_witness :
    "foo" ∈ outKind WR.outcome.unused_deps "app" DepKind.normal ↔
      (("app", "foo") ∈ WR.state.depsOf DepKind.normal ∧
        ("app", "foo") ∉ WR.state.usedOf DepKind.normal ∧
        (Winput.ignores "app").containsDep DepKind.normal "foo" = false) :=
  claim2_amended Winput WR "app" DepKind.normal "foo" runW_eq

/-- C3: `Outcome.success` is true iff every reported package's three per-kind
unused sets are empty (after ignore filtering), and the returned exit code is
0 exactly when success holds and 1 otherwise. -/
theorem claim3_exit_success (inp : UdepsInput) (r : RunResult)
    (hrun : runUdeps inp = .ok r) :
    (r.outcome.success = true ↔
      ∀ p ∈ r.outcome.unused_deps,
        p.2.normal = [] ∧ p.2.development = [] ∧ p.2.build = []) ∧
    (r.exitCode = 0 ↔ r.outcome.success = true) ∧
    (r.outcome.success = false → r.exitCode = 1) := by
  obtain ⟨-, -, hsucc, -, hexit⟩ := runUdeps_ok_elim hrun
  refine ⟨?_, ?_, ?_⟩
  · rw [hsucc]
    unfold computeSuccess
    rw [List.all_eq_true]
    constructor
    · intro h p hp
      have h1 := h p hp
      simp only [Bool.and_eq_true, List.isEmpty_iff] at h1
      exact ⟨h1.1.1, h1.1.2, h1.2⟩
    · intro h p hp
      have h1 := h p hp
      simp only [Bool.and_eq_true, List.isEmpty_iff]
      exact ⟨⟨h1.1, h1.2.1⟩, h1.2.2⟩
  · rw [hexit]
    constructor
    · intro h0
      by_cases hs : r.outcome.success = true
      · exact hs
      · rw [if_neg hs] at h0
        exact absurd h0 one_ne_zero
    · intro hs
      rw [if_pos hs]
  · intro hs
    rw [hexit, if_neg (by rw [hs]; exact Bool.false_ne_true)]

theorem claim3_witness :
    (WR.outcome.success = true ↔
      ∀ p ∈ WR.outcome.unused_deps,
        p.2.normal = [] ∧ p.2.development = [] ∧ p.2.build = []) ∧
    (WR.exitCode = 0 ↔ WR.outcome.success = true) ∧
    (WR.outcome.success = false → WR.exitCode = 1) :=
  claim3_exit_success Winput WR runW_eq

/-- C4: a declared dependency whose target package exposes no library target
is placed in `non_lib` by `DependencyNames::new`, is never marked used by the
matcher (its name is outside the kind-group's `by_lib_true_snakecased_name`
ranges), and so is reported unused for its kind — regardless of the content of
any usage artifact — unless the ignore list suppresses it. -/
theorem claim4_non_library_unused (es : List ResolveEntry) (e : ResolveEntry)
    (edge : DepEdge) (inp : UdepsInput) (r : RunResult) (P : PkgId)
    (he : e ∈ es) (hlib : e.libName = none) (hedge : edge ∈ e.deps)
    (hdn : alookup inp.dependency_names P = some (buildDepNames es))
    (hnolib : ∀ K1 ∈ kindGroup edge.kind,
      ∀ p ∈ ((buildDepNames es).get K1).by_lib_true_snakecased_name,
        edge.name_in_toml ∉ p.2)
    (hig : (inp.ignores P).containsDep edge.kind edge.name_in_toml = false)
    (hrun : runUdeps inp = .ok r) :
    edge.name_in_toml ∈ ((buildDepNames es).get edge.kind).non_lib ∧
    edge.name_in_toml ∈ outKind r.outcome.unused_deps P edge.kind := by
  have hnl : edge.name_in_toml ∈ ((buildDepNames es).get edge.kind).non_lib :=
    (buildDepNames_nonlib es edge.kind edge.name_in_toml).2
      ⟨e, he, hlib, edge, hedge, rfl, rfl⟩
  obtain ⟨hfold, hout, -, -, -⟩ := runUdeps_ok_elim hrun
  refine ⟨hnl, ?_⟩
  rw [hout, mem_outKind_aggregateAll]
  refine ⟨?_, ?_, hig⟩
  · exact subState_depsOf (foldCmds_subState hfold) edge.kind
      (initialState_deps_mem (alookup_mem hdn) edge.kind hnl)
  · intro hmem
    rcases foldCmds_used_origin hfold edge.kind (P, edge.name_in_toml) hmem with
      h1 | ⟨c, -, hP, dn1, hdn1, -, -, K1, hK1, ext, -, ns, hns, hn⟩
    · rw [initialState_usedOf] at h1
      cases h1
    · obtain rfl : c.pkg = P := hP.symm
      rw [hdn] at hdn1
      obtain rfl := Option.some.inj hdn1
      exact hnolib K1 hK1 (ext, ns) (alookup_mem hns) hn

theorem claim4_witness :
    "nl" ∈ ((buildDepNames Wentries).get DepKind.build).non_lib ∧
    "nl" ∈ outKind WR.outcome.unused_deps "app" DepKind.build :=
  claim4_non_library_unused Wentries
    { to_pkg := "N", libName := none, externCrateName := "",
      deps := [⟨DepKind.build, "nl"⟩] }
    ⟨DepKind.build, "nl"⟩ Winput WR "app"
    (by decide) (by decide) (by decide) (by decide) (by decide) (by decide) runW_eq

/-- C5: a declared-but-unused candidate that is listed in the package's ignore
configuration for its kind never appears in the outcome's unused set and is
recorded in the informational "Ignoring" log; without the ignore entry it
appears in the outcome. -/
theorem claim5_ignore_filtering (inp : UdepsInput) (r : RunResult) (P : PkgId)
    (K : DepKind) (d : Name) (hrun : runUdeps inp = .ok r)
    (hd : (P, d) ∈ r.state.depsOf K) (hnu : (P, d) ∉ r.state.usedOf K) :
    ((inp.ignores P).containsDep K d = true →
      d ∉ outKind r.outcome.unused_deps P K ∧ (P, K, d) ∈ r.ignoredLog) ∧
    ((inp.ignores P).containsDep K d = false →
      d ∈ outKind r.outcome.unused_deps P K) := by
  obtain ⟨-, hout, -, hlog, -⟩ := runUdeps_ok_elim hrun
  constructor
  · intro hig
    constructor
    · rw [hout, mem_outKind_aggregateAll]
      rintro ⟨-, -, hfalse⟩
      rw [hig] at hfalse
      cases hfalse
    · rw [hlog]
      exact mem_log_aggregateAll _ _ _ _ _ _ hd hnu hig
  · intro hig
    rw [hout, mem_outKind_aggregateAll]
    exact ⟨hd, hnu, hig⟩

theorem claim5_witness :
    (((Winput.ignores "app").containsDep DepKind.normal "ig" = true →
      "ig" ∉ outKind WR.outcome.unused_deps "app" DepKind.normal ∧
        ("app", DepKind.normal, "ig") ∈ WR.ignoredLog) ∧
    ((Winput.ignores "app").containsDep DepKind.normal "ig" = false →
      "ig" ∈ outKind WR.outcome.unused_deps "app" DepKind.normal)) :=
  claim5_ignore_filtering Winput WR "app" DepKind.normal "ig" runW_eq
    (by decide) (by decide)

/-- C7: a recorded local invocation whose save-analysis artifact is absent or
unreadable makes the whole run fail with an error — no outcome is produced. -/
theorem claim7_missing_artifact_fatal (inp : UdepsInput) (c : CmdInfo)
    (hc : c ∈ inp.cmd_infos)
    (hmiss : inp.fs c.get_save_analysis_path = none) :
    ∃ e, runUdeps inp = .error e := by
  cases hrun : runUdeps inp with
  | error e => exact ⟨e, rfl⟩
  | ok r =>
    obtain ⟨hfold, -, -, -, -⟩ := runUdeps_ok_elim hrun
    obtain ⟨a, b, hstep, -⟩ := foldCmds_exists_step hfold c hc
    obtain ⟨an, hfs⟩ := processCmdInfo_ok_fs hstep
    rw [hmiss] at hfs
    cases hfs

/-- Input for C7's witness: same workspace as `Winput`, but the filesystem
holds no artifact at all. -/
def C7input : UdepsInput :=
  { dependency_names := [("app", Wdn)]
    cmd_infos := [Wcmd]
    fs := fun _ => none
    ignores := fun _ => IgnoreCfg.empty
    manifest_path := fun _ => "m" }

theorem claim7_witness : ∃ e, runUdeps C7input = .error e :=
  claim7_missing_artifact_fatal C7input Wcmd (by decide) rfl

/-- C10: the artifact is loaded before the member-lookup, so a missing
artifact aborts the run even when the invocation's package has no entry in
the name-table map (is not a workspace member) and no usage would be
attributed for it. -/
theorem claim10_nonmember_artifact_fatal (inp : UdepsInput) (c : CmdInfo)
    (hc : c ∈ inp.cmd_infos)
    (hnm : alookup inp.dependency_names c.pkg = none)
    (hmiss : inp.fs c.get_save_analysis_path = none) :
    ∃ e, runUdeps inp = .error e := by
  cases hrun : runUdeps inp with
  | error e => exact ⟨e, rfl⟩
  | ok r =>
    obtain ⟨hfold, -, -, -, -⟩ := runUdeps_ok_elim hrun
    obtain ⟨a, b, hstep, -⟩ := foldCmds_exists_step hfold c hc
    obtain ⟨an, hfs⟩ := processCmdInfo_ok_fs hstep
    rw [hmiss] at hfs
    cases hfs

/-- Input for C10's witness: the invocation's package `app` is not among the
members (empty name-table map) and its artifact is missing. -/
def C10input : UdepsInput :=
  { dependency_names := []
    cmd_infos := [Wcmd]
    fs := fun _ => none
    ignores := fun _ => IgnoreCfg.empty
    manifest_path := fun _ => "m" }

theorem claim10_witness : ∃ e, runUdeps C10input = .error e :=
  claim10_nonmember_artifact_fatal C10input Wcmd (by decide) rfl rfl

/-- Two packages whose lib names both snakecase to `a_b`, one referenced by a
normal dependency `a`, the other by a development dependency `b`: the
collision exists only across the two kinds of the {Normal ∪ Development}
group, never inside one kind's table. -/
def C6entries : List ResolveEntry :=
  [ { to_pkg := "P1", libName := some "a-b", externCrateName := "e1",
      deps := [⟨DepKind.normal, "a"⟩] }
  , { to_pkg := "P2", libName := some "a_b", externCrateName := "e2",
      deps := [⟨DepKind.development, "b"⟩] } ]

/-- C6 (counterexample): within the kind-group {Normal ∪ Development} the
tables of `C6entries` map `a_b` to the two distinct names `a` and `b`, yet
both ambiguity lists of `DependencyNames::new` are empty, so no warning is
emitted. -/
theorem claim6_counterexample :
    alookup (((depNamesNew C6entries).1.get
        DepKind.normal).by_lib_true_snakecased_name) "a_b" = some ["a"] ∧
    alookup (((depNamesNew C6entries).1.get
        DepKind.development).by_lib_true_snakecased_name) "a_b" = some ["b"] ∧
    ("a" : Name) ≠ "b" ∧
    (depNamesNew C6entries).2.1 = [] ∧
    (depNamesNew C6entries).2.2 = [] := by
  decide

/-- C6 (amended): when a *single* kind's table within a group maps a
normalized library name to more than one `name_in_toml`, the group's
ambiguity list (whose non-emptiness triggers the warning) contains every
colliding name, and a usage-artifact reference to that library name marks
every colliding `name_in_toml` used in the group's used-accumulator.
Collisions split across the two kinds of {Normal ∪ Development} produce no
warning (see the counterexample), though each kind's own matches are still
all attributed. -/
theorem claim6_amended (dn : DependencyNames) (K : DepKind)
    (kinds : List DepKind) (lib : String) (names : List Name)
    (hK : K ∈ kinds)
    (hlk : alookup ((dn.get K).by_lib_true_snakecased_name) lib = some names)
    (hlen : 1 < names.length) :
    (ambiguousNames dn kinds ≠ [] ∧
      ∀ n ∈ names, (n, lib) ∈ ambiguousNames dn kinds) ∧
    (∀ (inp : UdepsInput) (r : RunResult) (c : CmdInfo) (an : CrateSaveAnalysis),
      c ∈ inp.cmd_infos →
      alookup inp.dependency_names c.pkg = some dn →
      inp.fs c.get_save_analysis_path = some an →
      lib ∈ an.external_crates →
      runUdeps inp = .ok r →
      ∀ n ∈ names, (c.pkg, n) ∈ r.state.usedOf K) := by
  constructor
  · constructor
    · have h0 : names ≠ [] := by
        intro h
        rw [h] at hlen
        simp at hlen
      obtain ⟨n0, hn0⟩ := List.exists_mem_of_ne_nil names h0
      exact List.ne_nil_of_mem (mem_ambiguousNames dn kinds hK hlk hlen hn0)
    · intro n hn
      exact mem_ambiguousNames dn kinds hK hlk hlen hn
  · intro inp r c an hc hdn hfs hlib hrun n hn
    obtain ⟨hfold, -, -, -, -⟩ := runUdeps_ok_elim hrun
    obtain ⟨a, b, hstep, hsub⟩ := foldCmds_exists_step hfold c hc
    obtain ⟨an1, hfs1, rfl⟩ := processCmdInfo_ok_member hstep hdn
    rw [hfs] at hfs1
    obtain rfl := Option.some.inj hfs1
    exact subState_usedOf hsub K (applyCmd_used_insert _ _ _ _ _ K hlib hlk hn)

/-- Same lib-name collision as `C6entries` but with both dependency edges of
kind Normal, so the collision sits inside one table. -/
def C6entriesW : List ResolveEntry :=
  [ { to_pkg := "P1", libName := some "a-b", externCrateName := "e1",
      deps := [⟨DepKind.normal, "a"⟩] }
  , { to_pkg := "P2", libName := some "a_b", externCrateName := "e2",
      deps := [⟨DepKind.normal, "b"⟩] } ]

def C6dnW : DependencyNames := buildDepNames C6entriesW

def C6cmd : CmdInfo :=
  { pkg := "app", custom_build := false, crate_name := "app", crate_type := "bin",
    extra_filename := "-e", cap_lints_allow := false, out_dir := "o",
    externs := [] }

def C6input : UdepsInput :=
  { dependency_names := [("app", C6dnW)]
    cmd_infos := [C6cmd]
    fs := fun p => if p = "o/save-analysis/app-e.json" then some ⟨["a_b"]⟩ else none
    ignores := fun _ => IgnoreCfg.empty
    manifest_path := fun _ => "m" }

def C6run : RunResult :=
  { state := { used_normal_dev := [("app", "a"), ("app", "b")], used_build := []
               normal_deps := [], dev_deps := [], build_deps := [] }
    outcome := { success := true, unused_deps := [] }
    ignoredLog := []
    exitCode := 0 }

theorem runC6_eq : runUdeps C6input = Except.ok C6run := by decide

theorem claim6_amended_witness :
    (ambiguousNames C6dnW [DepKind.normal, DepKind.development] ≠ [] ∧
      ∀ n ∈ (["a", "b"] : List Name),
        (n, "a_b") ∈ ambiguousNames C6dnW [DepKind.normal, DepKind.development]) ∧
    ("app", "a") ∈ C6run.state.usedOf DepKind.normal ∧
    ("app", "b") ∈ C6run.state.usedOf DepKind.normal := by
  have h := claim6_amended C6dnW DepKind.normal [DepKind.normal, DepKind.development]
    "a_b" ["a", "b"] (by decide) (by decide) (by decide)
  refine ⟨h.1, ?_, ?_⟩
  · exact h.2 C6input C6run C6cmd ⟨["a_b"]⟩ (by decide) (by decide) rfl
      (by decide) runC6_eq "a" (by decide)
  · exact h.2 C6input C6run C6cmd ⟨["a_b"]⟩ (by decide) (by decide) rfl
      (by decide) runC6_eq "b" (by decide)

/-- C8: after scanning the argument list, `cmd_info` fails with the dedicated
error when the crate name, the extra-filename or the output directory was not
determined; when all three are present it succeeds, with the crate type
defaulting to `"bin"` when unspecified. -/
theorem claim8_cmd_info (id : PkgId) (cb : Bool) (args : List String)
    (st : CmdScanState) (hscan : cmdInfoLoop args CmdScanState.init = .ok st) :
    (st.crate_name = none → cmd_info id cb args = .error .crateNameNeeded) ∧
    (∀ cn, st.crate_name = some cn → st.extra_filename = none →
      cmd_info id cb args = .error .extraFilenameNeeded) ∧
    (∀ cn ef, st.crate_name = some cn → st.extra_filename = some ef →
      st.out_dir = none → cmd_info id cb args = .error .outdirNeeded) ∧
    (∀ cn ef od, st.crate_name = some cn → st.extra_filename = some ef →
      st.out_dir = some od →
      cmd_info id cb args = .ok
        { pkg := id, custom_build := cb, crate_name := cn
          crate_type := st.crate_type.getD "bin", extra_filename := ef
          cap_lints_allow := st.cap_lints_allow, out_dir := od
          externs := st.externs }) ∧
    (st.crate_type = none → st.crate_type.getD "bin" = "bin") := by
  unfold cmd_info
  rw [hscan]
  dsimp only
  refine ⟨?_, ?_, ?_, ?_, ?_⟩
  · intro h
    rw [h]
  · intro cn hcn hef
    rw [hcn, hef]
  · intro cn ef hcn hef hod
    rw [hcn, hef, hod]
  · intro cn ef od hcn hef hod
    rw [hcn, hef, hod]
  · intro h
    rw [h]
    rfl

def C8args : List String :=
  ["--crate-name", "c", "-C", "extra-filename=-e", "--out-dir", "o"]

def C8st : CmdScanState :=
  { crate_name := some "c", crate_type := none, extra_filename := some "-e",
    cap_lints_allow := false, out_dir := some "o", externs := [] }

theorem claim8_witness :
    cmd_info "p" false C8args = .ok
      { pkg := "p", custom_build := false, crate_name := "c", crate_type := "bin",
        extra_filename := "-e", cap_lints_allow := false, out_dir := "o",
        externs := [] } := by
  have h := claim8_cmd_info "p" false C8args C8st (by decide)
  exact h.2.2.2.1 "c" "-e" "o" rfl rfl rfl

/-- C9: under the resolver invariant that equally-named dependencies of equal
kind point at packages of equal library-target status, every dependency edge's
`name_in_toml` lands in exactly one side of its kind's table: in the
`by_extern_crate_name`/`by_lib_true_snakecased_name` ranges when the target
has a library target (and then never in `non_lib`), in `non_lib` otherwise
(and then in neither name map). -/
theorem claim9_partition (es : List ResolveEntry) (e : ResolveEntry)
    (edge : DepEdge) (he : e ∈ es) (hedge : edge ∈ e.deps)
    (hcons : ∀ e1 ∈ es, ∀ d1 ∈ e1.deps, ∀ e2 ∈ es, ∀ d2 ∈ e2.deps,
      d1.kind = d2.kind → d1.name_in_toml = d2.name_in_toml →
      e1.libName.isSome = e2.libName.isSome) :
    (e.libName.isSome = true →
      libValMem ((buildDepNames es).get edge.kind).by_lib_true_snakecased_name
          edge.name_in_toml ∧
        edge.name_in_toml ∉ ((buildDepNames es).get edge.kind).non_lib) ∧
    (e.libName = none →
      edge.name_in_toml ∈ ((buildDepNames es).get edge.kind).non_lib ∧
        ¬ libValMem ((buildDepNames es).get edge.kind).by_lib_true_snakecased_name
            edge.name_in_toml ∧
        ∀ a, (a, edge.name_in_toml) ∉
          ((buildDepNames es).get edge.kind).by_extern_crate_name) := by
  constructor
  · intro hsome
    constructor
    · exact (buildDepNames_libval es edge.kind edge.name_in_toml).2
        ⟨e, he, hsome, edge, hedge, rfl, rfl⟩
    · intro hmem
      obtain ⟨e2, he2, hl2, edge2, hedge2, hk2, hn2⟩ :=
        (buildDepNames_nonlib es edge.kind edge.name_in_toml).1 hmem
      have hiso := hcons e he edge hedge e2 he2 edge2 hedge2 hk2.symm hn2.symm
      rw [hsome, hl2] at hiso
      simp at hiso
  · intro hnone
    refine ⟨?_, ?_, ?_⟩
    · exact (buildDepNames_nonlib es edge.kind edge.name_in_toml).2
        ⟨e, he, hnone, edge, hedge, rfl, rfl⟩
    · intro hmem
      obtain ⟨e2, he2, hl2, edge2, hedge2, hk2, hn2⟩ :=
        (buildDepNames_libval es edge.kind edge.name_in_toml).1 hmem
      have hiso := hcons e he edge hedge e2 he2 edge2 hedge2 hk2.symm hn2.symm
      rw [hnone, hl2] at hiso
      simp at hiso
    · intro a hmem
      obtain ⟨e2, he2, hl2, edge2, hedge2, hk2, hn2⟩ :=
        buildDepNames_ext_origin es edge.kind a edge.name_in_toml hmem
      have hiso := hcons e he edge hedge e2 he2 edge2 hedge2 hk2.symm hn2.symm
      rw [hnone, hl2] at hiso
      simp at hiso

theorem claim9_witness :
    "nl" ∈ ((buildDepNames Wentries).get DepKind.build).non_lib ∧
      ¬ libValMem
          ((buildDepNames Wentries).get DepKind.build).by_lib_true_snakecased_name
          "nl" ∧
      ∀ a, (a, "nl") ∉
        ((buildDepNames Wentries).get DepKind.build).by_extern_crate_name := by
  have h := claim9_partition Wentries
    { to_pkg := "N", libName := none, externCrateName := "",
      deps := [⟨DepKind.build, "nl"⟩] }
    ⟨DepKind.build, "nl"⟩ (by decide) (by decide) (by decide)
  exact h.2 rfl

end CargoUdeps
